import Mathlib

/-!
Verification development for the ProTracker v1 projection-and-edge engine
(`server.js`).  JavaScript numbers are modelled as exact rationals (`ℚ`),
absent / non-numeric record fields as `Option`, and the loosely-shaped
records as structures holding one canonical field per logical field (the
source probes ordered alias lists such as `playerId`/`player_id`/`pid`;
the model keeps the first-defined alternative in the single field, which
is exactly the value the probe returns).  `Array.prototype.sort` (a
stable sort in modern engines) is modelled by a stable insertion sort
with the same Boolean comparator.  The ambient clock (`getTodayET`) is
passed in explicitly as a `todayET` parameter.
-/

namespace ProTracker

/-! ### String helpers (ASCII-level models of the JS string operations) -/

/-- Whitespace test used by `trim` / `\s` (ASCII forms). -/
def isWSChar (c : Char) : Bool :=
  c = ' ' || c = '\t' || c = '\n' || c = '\r'

/-- Model of `String.prototype.trim`: drop leading and trailing whitespace. -/
def trimChars (l : List Char) : List Char :=
  ((l.dropWhile isWSChar).reverse.dropWhile isWSChar).reverse

def strTrim (s : String) : String := ⟨trimChars s.toList⟩

/-- ASCII `toLowerCase` on a character. -/
def charLowerA (c : Char) : Char :=
  if 'A' ≤ c && c ≤ 'Z' then Char.ofNat (c.toNat + 32) else c

/-- Model of `String.prototype.toLowerCase` (ASCII range, which is all the code feeds it). -/
def strLower (s : String) : String := ⟨s.toList.map charLowerA⟩

/-- Does `l` start with `needle`? -/
def listStartsWith : List Char → List Char → Bool
  | [], _ => true
  | _ :: _, [] => false
  | a :: as, b :: bs => a == b && listStartsWith as bs

/-- Substring containment on char lists. -/
def listContainsSub (needle : List Char) : List Char → Bool
  | [] => needle.isEmpty
  | c :: rest => listStartsWith needle (c :: rest) || listContainsSub needle rest

/-- Model of `String.prototype.includes`. -/
def strIncludes (s sub : String) : Bool := listContainsSub sub.toList s.toList

/-- Lexicographic (code-unit) `≤` on char lists; `localeCompare` and JS `<`/`>=`
agree with this on the ASCII date strings the code compares. -/
def lexLe : List Char → List Char → Bool
  | [], _ => true
  | _ :: _, [] => false
  | a :: as, b :: bs =>
    if a.toNat < b.toNat then true
    else if b.toNat < a.toNat then false
    else lexLe as bs

def strLeB (a b : String) : Bool := lexLe a.toList b.toList

/-- Collapse internal whitespace runs to a single space (`replace(/\s+/g, " ")`). -/
def collapseWS : List Char → List Char
  | [] => []
  | c :: rest =>
    if isWSChar c then
      ' ' :: collapseWS (rest.dropWhile isWSChar)
    else c :: collapseWS rest
termination_by l => l.length
decreasing_by
  · exact Nat.lt_succ_of_le (List.dropWhile_sublist _).length_le
  · simp

/-! ### JS truthiness on optional strings -/

/-- JS truthiness of an optional string: `undefined`/`null` and `""` are falsy. -/
def truthyS : Option String → Option String
  | some s => if s = "" then none else some s
  | none => none

/-- Model of `String(x || "")` for an optional string `x`. -/
def jsStr (a : Option String) : String := (truthyS a).getD ""

/-- Model of `a || b` on optional strings under JS truthiness. -/
def jsOrS (a b : Option String) : Option String :=
  match truthyS a with
  | some s => some s
  | none => truthyS b

/-- Model of `isValidISODate`: the regex `^\d{4}-\d{2}-\d{2}$`. -/
def isValidISODate (s : String) : Bool :=
  match s.toList with
  | [y1, y2, y3, y4, h1, m1, m2, h2, d1, d2] =>
    y1.isDigit && y2.isDigit && y3.isDigit && y4.isDigit &&
    h1 = '-' && m1.isDigit && m2.isDigit && h2 = '-' && d1.isDigit && d2.isDigit
  | _ => false

/-! ### Stable sort modelling `Array.prototype.sort` -/

def orderedInsert (le : α → α → Bool) (a : α) : List α → List α
  | [] => [a]
  | b :: l => if le a b then a :: b :: l else b :: orderedInsert le a l

/-- Stable insertion sort with a Boolean comparator; models the observable
behaviour of the stable `Array.prototype.sort`. -/
def insSort (le : α → α → Bool) : List α → List α
  | [] => []
  | a :: l => orderedInsert le a (insSort le l)

/-! ### Data model -/

/-- One player's box-score line for one date (canonical fields; see header). -/
structure GameLog where
  playerId : Option String := none
  playerName : Option String := none
  gameDate : Option String := none
  pts : Option ℚ := none
  reb : Option ℚ := none
  ast : Option ℚ := none
  fg3m : Option ℚ := none
deriving Repr, DecidableEq

/-- One sportsbook prop line (canonical fields; see header). -/
structure PropLine where
  date : Option String := none
  slateDate : Option String := none
  playerId : Option String := none
  playerName : Option String := none
  statType : Option String := none
  team : Option String := none
  line : Option ℚ := none
deriving Repr, DecidableEq

/-- Model of `propsArchive[date]` entry: a point-in-time copy of one date's prop lines. -/
structure Archive where
  ts : String := ""
  sgo : List PropLine := []
  hardrock : List PropLine := []
deriving Repr, DecidableEq

/-- The persisted collections the handlers read (`readDB`). -/
structure DB where
  nbaPlayerGameLogs : List GameLog := []
  sgoPropLines : List PropLine := []
  hardrockPropLines : List PropLine := []
  propsArchive : List (String × Archive) := []
deriving Repr, DecidableEq

/-- Model of `db.propsArchive[date]` (object keys are unique; first match wins). -/
def archiveLookup (db : DB) (date : String) : Option Archive :=
  (db.propsArchive.find? (fun kv => kv.1 == date)).map (·.2)

/-! ### Record normalizer (`server.js` domain helpers) -/

/-- Model of `extractPropDate`: `prop.date || prop.slateDate || ... || null`
(the remaining aliases are collapsed into the two model fields). -/
def extractPropDate (p : PropLine) : Option String := jsOrS p.date p.slateDate

/-- Model of `extractPropLine`: first candidate field parsing to a finite number
(aliases collapsed into the canonical `line` field). -/
def extractPropLine (p : PropLine) : Option ℚ := p.line

/-- The canonical identity fields `extractPropKey` produces. -/
structure PropKey where
  playerId : Option String
  playerName : String
  statType : String
  team : String
deriving Repr, DecidableEq

/-- Model of `extractPropKey`. -/
def extractPropKey (p : PropLine) : PropKey :=
  { playerId := truthyS p.playerId
    playerName := strTrim (jsStr p.playerName)
    statType := strTrim (jsStr p.statType)
    team := strTrim (jsStr p.team) }

/-- Model of `normalizeStatType`. -/
def normalizeStatType (statType : Option String) : Option String :=
  let s := strLower (statType.getD "")
  if strIncludes s "point" || s == "pts" then some "PTS"
  else if strIncludes s "rebound" || s == "reb" then some "REB"
  else if strIncludes s "assist" || s == "ast" then some "AST"
  else if strIncludes s "3" && (strIncludes s "made" || strIncludes s "pm" || strIncludes s "three") then some "3PM"
  else if s == "3pm" then some "3PM"
  else if statType == some "PTS" || statType == some "REB" || statType == some "AST" || statType == some "3PM" then statType
  else none

/-- Model of `getStatFromLog` (alias probing collapsed to the canonical stat field). -/
def getStatFromLog (g : GameLog) (stat : String) : Option ℚ :=
  if stat = "PTS" then g.pts
  else if stat = "REB" then g.reb
  else if stat = "AST" then g.ast
  else if stat = "3PM" then g.fg3m
  else none

/-- Model of `getPlayerIdFromLog`: `log.playerId || log.player_id || log.pid || null`. -/
def getPlayerIdFromLog (g : GameLog) : Option String := truthyS g.playerId

/-- Model of `getPlayerNameFromLog`: `log.playerName || ... || ""`. -/
def getPlayerNameFromLog (g : GameLog) : String := jsStr g.playerName

/-! ### Display rounding (`Number(x.toFixed(k))`); ties go to the larger value. -/

def round2 (q : ℚ) : ℚ := (⌊q * 100 + 1/2⌋ : ℚ) / 100

def round3 (q : ℚ) : ℚ := (⌊q * 1000 + 1/2⌋ : ℚ) / 1000

/-! ### Stat aggregator (`computeLeadersFromLogs`) -/

/-- The per-player accumulator object built in the `byPlayer` map. -/
structure PlayerAgg where
  playerId : Option String
  playerName : String
  gp : ℕ
  sPTS : ℚ
  sREB : ℚ
  sAST : ℚ
  s3PM : ℚ
deriving Repr, DecidableEq

/-- The map key: `id:<pid>` when the log has a truthy player id, else
`name:<lowercased trimmed name>`; `none` when neither exists (log skipped). -/
def logGroupKey (g : GameLog) : Option String :=
  let pid := getPlayerIdFromLog g
  let pname := strTrim (getPlayerNameFromLog g)
  match pid with
  | some p => some ("id:" ++ p)
  | none => if pname = "" then none else some ("name:" ++ strLower pname)

/-- Fold one log into the association list modelling the insertion-ordered
JS `Map` (`byPlayer`): get-or-create the entry, then add the stats when at
least one of the four parses to a finite number. -/
def leadersStep (acc : List (String × PlayerAgg)) (g : GameLog) : List (String × PlayerAgg) :=
  match logGroupKey g with
  | none => acc
  | some key =>
    let pid := getPlayerIdFromLog g
    let pname := strTrim (getPlayerNameFromLog g)
    let acc1 := if acc.any (fun kv => kv.1 == key) then acc
      else acc ++ [(key, ⟨pid, pname, 0, 0, 0, 0, 0⟩)]
    let pts := getStatFromLog g "PTS"
    let reb := getStatFromLog g "REB"
    let ast := getStatFromLog g "AST"
    let tpm := getStatFromLog g "3PM"
    if pts.isSome || reb.isSome || ast.isSome || tpm.isSome then
      acc1.map (fun kv =>
        if kv.1 == key then
          (key, { kv.2 with
            gp := kv.2.gp + 1
            sPTS := kv.2.sPTS + pts.getD 0
            sREB := kv.2.sREB + reb.getD 0
            sAST := kv.2.sAST + ast.getD 0
            s3PM := kv.2.s3PM + tpm.getD 0
            playerName := if kv.2.playerName = "" && pname ≠ "" then pname else kv.2.playerName })
        else kv)
    else acc1

/-- One leaderboard row (`{playerId, playerName, gp, perGame}`). -/
structure LeaderEntry where
  playerId : Option String
  playerName : String
  gp : ℕ
  perGame : ℚ
deriving Repr, DecidableEq

/-- Which of the four per-player sums a leaderboard ranks. -/
def aggStat (p : PlayerAgg) : String → ℚ
  | "REB" => p.sREB
  | "AST" => p.sAST
  | "3PM" => p.s3PM
  | _ => p.sPTS

/-- Model of `top25`: per-game averages of the `gp > 0` players, sorted descending by
`perGame` (rounded to 2 decimals), truncated to 25. -/
def top25 (players : List PlayerAgg) (stat : String) : List LeaderEntry :=
  let entries := (players.filter (fun p => 0 < p.gp)).map (fun p =>
    ⟨p.playerId, p.playerName, p.gp, round2 (aggStat p stat / (p.gp : ℚ))⟩)
  (insSort (fun a b => decide (b.perGame ≤ a.perGame)) entries).take 25

/-- The four leaderboards `computeLeadersFromLogs` returns. -/
structure Leaders where
  points : List LeaderEntry
  rebounds : List LeaderEntry
  assists : List LeaderEntry
  threes : List LeaderEntry
deriving Repr, DecidableEq

def computeLeadersFromLogs (logs : List GameLog) : Leaders :=
  let players := (logs.foldl leadersStep []).map (·.2)
  { points := top25 players "PTS"
    rebounds := top25 players "REB"
    assists := top25 players "AST"
    threes := top25 players "3PM" }

/-! ### Rolling projector (`rollingProjection`) -/

structure Projection where
  stat : String
  gamesUsed : ℕ
  projection : ℚ
deriving Repr, DecidableEq

/-- Model of `a.gameDate || a.date || a.gamedate || a.day || ""` (aliases collapsed). -/
def logDateStr (g : GameLog) : String := jsStr g.gameDate

/-- The date comparator of `rollingProjection`: most-recent first when both
dates are valid ISO, else "don't care" (the source comparator returns 0). -/
def rpDateLE (a b : GameLog) : Bool :=
  let da := logDateStr a
  let db' := logDateStr b
  if isValidISODate da && isValidISODate db' then strLeB db' da else true

/-- The player-identity filter inside `rollingProjection`. -/
def matchesPlayer (key : PropKey) (g : GameLog) : Bool :=
  let pid := getPlayerIdFromLog g
  let pname := strTrim (getPlayerNameFromLog g)
  match truthyS key.playerId, pid with
  | some kid, some p => p == kid
  | some _, none => false
  | none, _ =>
    if key.playerName ≠ "" && pname ≠ "" then strLower pname == strLower key.playerName
    else false

/-- The collection loop: push each finite stat value, stop once `gamesN`
values are collected (the break test runs after every log). -/
def collectVals (stat : String) (gamesN : ℕ) : List GameLog → List ℚ → List ℚ
  | [], acc => acc
  | g :: rest, acc =>
    let acc' := match getStatFromLog g stat with
      | some v => acc ++ [v]
      | none => acc
    if gamesN ≤ acc'.length then acc' else collectVals stat gamesN rest acc'

def rollingProjection (logs : List GameLog) (playerKey : PropKey) (stat : Option String)
    (gamesN : ℕ) : Option Projection :=
  match normalizeStatType stat with
  | none => none
  | some statNorm =>
    let filtered := logs.filter (matchesPlayer playerKey)
    let sorted := insSort rpDateLE filtered
    let vals := collectVals statNorm gamesN sorted []
    if vals = [] then none
    else some ⟨statNorm, vals.length, vals.sum / (vals.length : ℚ)⟩

/-! ### Edge engine, endpoint `GET /api/nba/edges-today-tiered` -/

def tierForAbsEdge (absEdge : ℚ) : String :=
  if 3 ≤ absEdge then "A"
  else if 3/2 ≤ absEdge then "B"
  else "C"

structure EdgeItem where
  tier : String
  source : String
  date : String
  playerId : Option String
  playerName : Option String
  team : Option String
  stat : String
  gamesUsed : ℕ
  projection : ℚ
  line : ℚ
  edge : ℚ
  absEdge : ℚ
deriving Repr, DecidableEq

/-- The loop body over one tagged prop: extract the line, the key and the
rolling projection, apply the `minEdge` filter, and build the edge record. -/
def edgeForProp (logs : List GameLog) (gamesN : ℕ) (minEdge : ℚ) (useDate : String)
    (src : String) (p : PropLine) : Option EdgeItem :=
  match extractPropLine p with
  | none => none
  | some line =>
    let key := extractPropKey p
    let statTypeRaw := p.statType
    match rollingProjection logs key statTypeRaw gamesN with
    | none => none
    | some proj =>
      let edge := proj.projection - line
      let absEdge := |edge|
      if absEdge < minEdge then none
      else some
        { tier := tierForAbsEdge absEdge
          source := src
          date := useDate
          playerId := key.playerId
          playerName := if key.playerName = "" then none else some key.playerName
          team := if key.team = "" then none else some key.team
          stat := proj.stat
          gamesUsed := proj.gamesUsed
          projection := round2 proj.projection
          line := round2 line
          edge := round2 edge
          absEdge := round2 absEdge }

/-- Props of both sources tagged with origin, filtered to the target date. -/
def propsForDate1 (db : DB) (useDate : String) : List (PropLine × String) :=
  (db.sgoPropLines.filter (fun p => extractPropDate p == some useDate)).map (fun p => (p, "sgo")) ++
  (db.hardrockPropLines.filter (fun p => extractPropDate p == some useDate)).map (fun p => (p, "hardrock"))

def tierRank (t : String) : ℕ :=
  if t = "A" then 1 else if t = "B" then 2 else if t = "C" then 3 else 9

/-- The flattened-sort comparator: tier rank ascending, then absEdge descending. -/
def edgeSortLE (a b : EdgeItem) : Bool :=
  if tierRank a.tier = tierRank b.tier then decide (b.absEdge ≤ a.absEdge)
  else decide (tierRank a.tier < tierRank b.tier)

/-- Model of `uniqSortedDates`: distinct valid ISO dates, ascending. -/
def uniqSortedDates (arr : List String) : List String :=
  insSort strLeB (arr.filter isValidISODate).dedup

/-- The dates the omitted-date branch of `edges-today-tiered` consults:
live prop lines of both sources (archive keys are NOT included here). -/
def livePropDates (db : DB) : List String :=
  ((db.sgoPropLines.map extractPropDate) ++ (db.hardrockPropLines.map extractPropDate)).filterMap id

/-- The omitted-date resolution of `edges-today-tiered` (lines 457-469). -/
def resolveDate1 (db : DB) (todayET : String) : String :=
  let dates := uniqSortedDates (livePropDates db)
  if dates = [] then todayET
  else
    match dates.filter (fun d => strLeB todayET d) with
    | d :: _ => d
    | [] => dates.getLast?.getD todayET

/-- The date resolution of `GET /api/props/active-date` (lines 355-378):
same nearest-upcoming-else-latest rule, but over live prop dates AND
archive keys. -/
def activeDate (db : DB) (todayET : String) : String :=
  let unique := uniqSortedDates (livePropDates db ++ db.propsArchive.map (·.1))
  if unique = [] then todayET
  else
    match unique.filter (fun d => strLeB todayET d) with
    | d :: _ => d
    | [] => unique.getLast?.getD todayET

structure Edges1Result where
  todayET : String
  date : String
  minEdge : ℚ
  gamesN : ℕ
  edges : List EdgeItem
  tierA : List EdgeItem
  tierB : List EdgeItem
  tierC : List EdgeItem
deriving Repr, DecidableEq

/-- Model of `GET /api/nba/edges-today-tiered`.  `gamesN` is the request's `games`
parameter after the source's clamp to `[1,30]`; `minEdge` is `Number(minEdge||0)`
(unclamped).  The only rejection path is the date-format validation. -/
def edgesTodayTiered (db : DB) (dateQ : String) (minEdge : ℚ) (gamesN : ℕ)
    (todayET : String) : Except String Edges1Result :=
  if dateQ ≠ "" && !isValidISODate dateQ then
    .error "Invalid date. Use YYYY-MM-DD (or omit date)."
  else
    let useDate := if dateQ ≠ "" then dateQ else resolveDate1 db todayET
    let props := propsForDate1 db useDate
    let edges := insSort edgeSortLE
      (props.filterMap (fun ps => edgeForProp db.nbaPlayerGameLogs gamesN minEdge useDate ps.2 ps.1))
    .ok
      { todayET := todayET
        date := useDate
        minEdge := minEdge
        gamesN := gamesN
        edges := edges
        tierA := edges.filter (fun e => e.tier == "A")
        tierB := edges.filter (fun e => e.tier == "B")
        tierC := edges.filter (fun e => e.tier == "C") }

/-! ### Edge engine, endpoint `GET /api/nba/edges-tiered-v2` -/

/-- The four log stat fields the v2 helpers address by name. -/
inductive StatField
  | pts
  | reb
  | ast
  | fg3m
deriving Repr, DecidableEq

/-- Model of `statToField` (local helper of the v2 endpoint). -/
def statToField (statType : Option String) : Option StatField :=
  let s := strTrim (strLower (statType.getD ""))
  if s == "points" || s == "pts" then some .pts
  else if s == "rebounds" || s == "rebs" || s == "reb" then some .reb
  else if s == "assists" || s == "asts" || s == "ast" then some .ast
  else if s == "3pm" || s == "threes" || s == "3s" || s == "fg3m" then some .fg3m
  else none

/-- Model of `g[field]` for the four stat fields. -/
def fieldVal (g : GameLog) : StatField → Option ℚ
  | .pts => g.pts
  | .reb => g.reb
  | .ast => g.ast
  | .fg3m => g.fg3m

/-- The grouping guard: `if (!g || !g.playerId || !g.gameDate) continue`. -/
def v2ValidLog (g : GameLog) : Bool :=
  (truthyS g.playerId).isSome && (truthyS g.gameDate).isSome

/-- The per-group comparator `String(b.gameDate).localeCompare(String(a.gameDate))`
(descending by date). -/
def v2DateLE (a b : GameLog) : Bool :=
  strLeB (b.gameDate.getD "") (a.gameDate.getD "")

/-- The `byPlayer.get(pid)` group: the valid logs with that exact `playerId`,
sorted most-recent first (used by `projections`, `projections-weighted` and
`edges-tiered-v2`, which all build `byPlayer` with the same guard and sort). -/
def v2Group (logs : List GameLog) (pid : String) : List GameLog :=
  insSort v2DateLE ((logs.filter v2ValidLog).filter (fun g => g.playerId == some pid))

structure AvgOut where
  gp : ℕ
  value : Option ℚ
deriving Repr, DecidableEq

/-- Model of `flatAvg` (local helper of the v2 endpoint): plain mean of the windowed
values; a missing/non-numeric field contributes 0 (`Number(g[field] || 0)`). -/
def flatAvg (arr : List GameLog) (field : StatField) (gamesN : ℕ) : AvgOut :=
  let slice := arr.take gamesN
  if slice.isEmpty then ⟨0, none⟩
  else ⟨slice.length, some ((slice.map (fun g => (fieldVal g field).getD 0)).sum / (slice.length : ℚ))⟩

/-- The accumulator loop of `weightedAvg`: index `i` carries weight `gamesN - i`. -/
def weightedLoop (field : StatField) (gamesN : ℕ) :
    List GameLog → ℕ → ℚ × ℚ → ℚ × ℚ
  | [], _, acc => acc
  | g :: rest, i, (wSum, sum) =>
    let w : ℚ := (gamesN : ℚ) - (i : ℚ)
    weightedLoop field gamesN rest (i + 1) (wSum + w, sum + w * (fieldVal g field).getD 0)

/-- Model of `weightedAvg` (local helper of the v2 endpoint). -/
def weightedAvg (arr : List GameLog) (field : StatField) (gamesN : ℕ) : AvgOut :=
  let slice := arr.take gamesN
  if slice.isEmpty then ⟨0, none⟩
  else
    let (wSum, sum) := weightedLoop field gamesN slice 0 (0, 0)
    ⟨slice.length, if wSum = 0 then none else some (sum / wSum)⟩

/-- One v2 edge record. -/
structure V2Item where
  date : String
  source : String
  playerId : Option String
  playerName : String
  team : Option String
  statType : Option String
  line : ℚ
  proj : ℚ
  edge : ℚ
  absEdge : ℚ
  gp : ℕ
deriving Repr, DecidableEq

/-- The v2 tier thresholds (`>= 3` → A, `>= 2` → B, else C). -/
def tierForAbsEdgeV2 (absEdge : ℚ) : String :=
  if 3 ≤ absEdge then "A"
  else if 2 ≤ absEdge then "B"
  else "C"

/-- Props of both sources for the v2 target date (`String(p.date || "") === date`),
tagged with their source. -/
def v2PropsForDate (db : DB) (date : String) : List (PropLine × String) :=
  (db.sgoPropLines.filter (fun p => jsStr p.date == date)).map (fun p => (p, "sgo")) ++
  (db.hardrockPropLines.filter (fun p => jsStr p.date == date)).map (fun p => (p, "hardrock"))

/-- The v2 loop body for one tagged prop; returns the tier letter (decided on
the unrounded `absEdge`) together with the item pushed onto that tier. -/
def v2EdgeForProp (logs : List GameLog) (gamesN : ℕ) (minEdge : ℚ) (mode : String)
    (date : String) (src : String) (p : PropLine) : Option (String × V2Item) :=
  match statToField p.statType with
  | none => none
  | some field =>
    match truthyS p.playerId with
    | none => none
    | some playerId =>
      let arr := v2Group logs playerId
      if arr.isEmpty then none
      else
        let r := if mode == "flat" then flatAvg arr field gamesN else weightedAvg arr field gamesN
        match r.value with
        | none => none
        | some value =>
          match p.line with
          | none => none
          | some line =>
            let edge := value - line
            let absEdge := |edge|
            if absEdge < minEdge then none
            else
              let pname := strTrim (jsStr p.playerName)
              some (tierForAbsEdgeV2 absEdge,
                { date := date
                  source := src
                  playerId := some playerId
                  playerName := if pname ≠ "" then pname
                    else (truthyS (arr.head?.bind (fun g => g.playerName))).getD "Unknown"
                  team := truthyS p.team
                  statType := p.statType
                  line := line
                  proj := round3 value
                  edge := round3 edge
                  absEdge := round3 absEdge
                  gp := r.gp })

/-- The v2 omitted-date default: `String(req.query.date || "").trim() || nowETDate()`. -/
def v2UseDate (dateQ todayET : String) : String :=
  if strTrim dateQ = "" then todayET else strTrim dateQ

/-- Within-tier sort: largest (rounded) absEdge first. -/
def v2AbsLE (a b : V2Item) : Bool := decide (b.absEdge ≤ a.absEdge)

structure V2Result where
  date : String
  mode : String
  gamesN : ℕ
  minEdge : ℚ
  totalPropsForDate : ℕ
  tiersA : List V2Item
  tiersB : List V2Item
  tiersC : List V2Item
deriving Repr, DecidableEq

/-- Model of `GET /api/nba/edges-tiered-v2`.  `gamesN` is the request's `games` after
the source's `Math.max(1, ...)`.  The handler has no validation-rejection
path: every request (any date string) produces a normal result. -/
def edgesTieredV2 (db : DB) (dateQ : String) (gamesN : ℕ) (minEdgeQ : ℚ)
    (modeQ : String) (todayET : String) : V2Result :=
  let date := v2UseDate dateQ todayET
  let minEdge := max 0 minEdgeQ
  let mode := strLower modeQ
  let logs := db.nbaPlayerGameLogs
  let props := v2PropsForDate db date
  let tagged := props.filterMap (fun ps => v2EdgeForProp logs gamesN minEdge mode date ps.2 ps.1)
  { date := date
    mode := mode
    gamesN := gamesN
    minEdge := minEdge
    totalPropsForDate := props.length
    tiersA := insSort v2AbsLE ((tagged.filter (fun ti => ti.1 == "A")).map (·.2))
    tiersB := insSort v2AbsLE ((tagged.filter (fun ti => ti.1 == "B")).map (·.2))
    tiersC := insSort v2AbsLE ((tagged.filter (fun ti => ti.1 == "C")).map (·.2)) }

/-- Wrapper making explicit that the v2 handler never rejects: its only
non-200 path is the catch-all 500. -/
def edgesTieredV2Run (db : DB) (dateQ : String) (gamesN : ℕ) (minEdgeQ : ℚ)
    (modeQ : String) (todayET : String) : Except String V2Result :=
  .ok (edgesTieredV2 db dateQ gamesN minEdgeQ modeQ todayET)

/-! ### `GET /api/nba/projections-weighted` -/

structure WProj where
  playerId : String
  playerName : Option String
  gp : ℕ
  gamesRequested : ℕ
  weightSum : ℚ
  pts : ℚ
  reb : ℚ
  ast : ℚ
  fg3m : ℚ
deriving Repr, DecidableEq

/-- The per-player accumulator loop of `projections-weighted`: weight
`gamesN - i` on the i-th most-recent log, all four stats at once
(`Number(g.pts || 0)` etc.). -/
def wProjLoop (gamesN : ℕ) : List GameLog → ℕ → ℚ × ℚ × ℚ × ℚ × ℚ → ℚ × ℚ × ℚ × ℚ × ℚ
  | [], _, acc => acc
  | g :: rest, i, (wSum, pts, reb, ast, fg3m) =>
    let w : ℚ := (gamesN : ℚ) - (i : ℚ)
    wProjLoop gamesN rest (i + 1)
      (wSum + w, pts + w * (g.pts.getD 0), reb + w * (g.reb.getD 0),
       ast + w * (g.ast.getD 0), fg3m + w * (g.fg3m.getD 0))

def weightedProjForPlayer (logs : List GameLog) (gamesN : ℕ) (pid : String) : Option WProj :=
  let arr := v2Group logs pid
  let slice := arr.take gamesN
  if slice.isEmpty then none
  else
    let (wSum, pts, reb, ast, fg3m) := wProjLoop gamesN slice 0 (0, 0, 0, 0, 0)
    some
      { playerId := pid
        playerName := slice.head?.bind (fun g => g.playerName)
        gp := slice.length
        gamesRequested := gamesN
        weightSum := wSum
        pts := if wSum = 0 then 0 else pts / wSum
        reb := if wSum = 0 then 0 else reb / wSum
        ast := if wSum = 0 then 0 else ast / wSum
        fg3m := if wSum = 0 then 0 else fg3m / wSum }

/-- The `byPlayer` keys in first-occurrence order (JS `Map` iteration order). -/
def firstOccKeys : List GameLog → List String → List String
  | [], _ => []
  | g :: rest, seen =>
    if v2ValidLog g then
      let pid := g.playerId.getD ""
      if pid ∈ seen then firstOccKeys rest seen
      else pid :: firstOccKeys rest (pid :: seen)
    else firstOccKeys rest seen

def v2PlayerIds (logs : List GameLog) : List String := firstOccKeys logs []

/-- Model of `GET /api/nba/projections-weighted`: one weighted projection per grouped
player, sorted by weighted points descending. -/
def projectionsWeighted (logs : List GameLog) (gamesN : ℕ) : List WProj :=
  insSort (fun a b => decide (b.pts ≤ a.pts))
    ((v2PlayerIds logs).filterMap (weightedProjForPlayer logs gamesN))

/-! ### Archive + line moves -/

/-- Model of `POST /api/props/archive-date`: the snapshot stored at `propsArchive[date]`
(the filter probes `p.date || p.slateDate`). -/
def archiveForDate (db : DB) (date : String) (ts : String) : Archive :=
  { ts := ts
    sgo := db.sgoPropLines.filter (fun p => (jsOrS p.date p.slateDate).getD "" == date)
    hardrock := db.hardrockPropLines.filter (fun p => (jsOrS p.date p.slateDate).getD "" == date) }

/-- Model of `normStat`: `String(s || "").toLowerCase().trim()`. -/
def normStat (s : Option String) : String := strTrim (strLower (jsStr s))

/-- Model of `normName`: lowercase, collapse internal whitespace, trim. -/
def normName (s : Option String) : String := ⟨trimChars (collapseWS (strLower (jsStr s)).toList)⟩

/-- Model of `keyOf`: `(playerId-or-normalized-name) ++ "__" ++ normalized statType`
(the line value is deliberately not part of the key). -/
def keyOf (p : PropLine) : String :=
  let pid := (truthyS p.playerId).getD ""
  let name := normName p.playerName
  let stat := normStat p.statType
  (if pid ≠ "" then pid else name) ++ "__" ++ stat

/-- The archived-side index: only entries whose line parses to a finite
number are indexed; `Map.set` semantics mean the LAST entry with a key wins. -/
def arcIndex (l : List PropLine) : List (String × (PropLine × ℚ)) :=
  l.filterMap (fun p => p.line.map (fun ln => (keyOf p, (p, ln))))

def arcGet (idx : List (String × (PropLine × ℚ))) (k : String) : Option (PropLine × ℚ) :=
  ((idx.filter (fun kv => kv.1 == k)).getLast?).map (·.2)

structure Move where
  date : String
  source : String
  playerId : Option String
  playerName : String
  team : Option String
  statType : Option String
  openLine : ℚ
  curLine : ℚ
  delta : ℚ
  absDelta : ℚ
deriving Repr, DecidableEq

/-- Model of `compareCurrent`: one source's live entries against the archived index.
(The source code prefixes map keys with the source tag; since each source's
entries are compared only against that source's archived entries, per-source
indexes are the same computation.) -/
def compareCurrent (arcIdx : List (String × (PropLine × ℚ))) (date srcTag : String)
    (list : List PropLine) : List Move :=
  list.filterMap (fun p =>
    match arcGet arcIdx (keyOf p) with
    | none => none
    | some (op, openLine) =>
      match p.line with
      | none => none
      | some curLine =>
        let delta := curLine - openLine
        let absDelta := |delta|
        if absDelta = 0 then none
        else some
          { date := date
            source := srcTag
            playerId := jsOrS p.playerId op.playerId
            playerName := (jsOrS p.playerName op.playerName).getD "Unknown"
            team := jsOrS p.team op.team
            statType := jsOrS p.statType op.statType
            openLine := openLine
            curLine := curLine
            delta := delta
            absDelta := absDelta })

structure MovesResult where
  date : String
  archiveFound : Bool
  archivedAt : Option String
  source : String
  note : Option String
  movesCount : ℕ
  moves : List Move
deriving Repr, DecidableEq

/-- Model of `GET /api/props/line-moves`.  `limit` is the request's `limit` after
`Math.max(1, ...)`.  A missing archive is an `ok:true` response carrying
`exists:false`, an informational message and an empty move list — only a
malformed date is a rejected (400) request. -/
def lineMoves (db : DB) (dateQ sourceQ : String) (limit : ℕ) : Except String MovesResult :=
  let date := strTrim dateQ
  let source := strLower sourceQ
  if !(date ≠ "" && isValidISODate date) then
    .error "Missing/invalid date. Use /api/props/line-moves?date=YYYY-MM-DD&source=all|sgo|hardrock&limit=50"
  else
    match archiveLookup db date with
    | none =>
      .ok { date := date, archiveFound := false, archivedAt := none, source := source
            note := some "No archive for this date. Run POST /api/props/archive-date first."
            movesCount := 0, moves := [] }
    | some archive =>
      let curSGO := db.sgoPropLines.filter (fun p => jsStr p.date == date)
      let curHR := db.hardrockPropLines.filter (fun p => jsStr p.date == date)
      let includeSGO := source == "all" || source == "sgo"
      let includeHR := source == "all" || source == "hardrock"
      let moves :=
        (if includeSGO then compareCurrent (arcIndex archive.sgo) date "sgo" curSGO else []) ++
        (if includeHR then compareCurrent (arcIndex archive.hardrock) date "hardrock" curHR else [])
      let sortedMoves := insSort (fun a b => decide (b.absDelta ≤ a.absDelta)) moves
      .ok { date := date, archiveFound := true, archivedAt := some archive.ts, source := source
            note := none, movesCount := moves.length, moves := sortedMoves.take limit }

/-! ### Concrete sample data used in scenario evaluations -/

def gLog1 : GameLog := { playerId := some "1", gameDate := some "2025-01-01", pts := some 20 }

def gLog2 : GameLog := { playerId := some "1", gameDate := some "2025-01-03", pts := some 30 }

/-- A valid grouped log carrying no numeric value for any stat. -/
def gLogBare : GameLog := { playerId := some "1", gameDate := some "2025-01-02" }

/-- Two live sgo props sharing `(playerId, statType)` with different lines
(the import dedup key includes the line, so these coexist). -/
def propA : PropLine :=
  { date := some "2025-02-01", playerId := some "1", statType := some "points", line := some 10 }

def propB : PropLine :=
  { date := some "2025-02-01", playerId := some "1", statType := some "points", line := some 20 }

def dbDupKeys : DB := { sgoPropLines := [propA, propB] }

def dbOneProp : DB := { sgoPropLines := [propA] }

/-- One future-dated prop line (for date-resolution scenarios). -/
def dbFutureProp : DB := { sgoPropLines := [{ date := some "2025-01-15", playerId := some "1" }] }

/-- A points prop for player "1" with a line far from the projection. -/
def prop0 : PropLine :=
  { date := some "2025-01-05", playerId := some "1", statType := some "points", line := some 14 }

/-- Two logs plus one prop: produces exactly one edge. -/
def dbEdge : DB := { nbaPlayerGameLogs := [gLog1, gLog2], sgoPropLines := [prop0] }

/-- The edge `edges-today-tiered` computes from `dbEdge` (projection 25 over
two games, line 14, edge 11, tier A). -/
def edgeItem0 : EdgeItem :=
  { tier := "A", source := "sgo", date := "2025-01-05", playerId := some "1",
    playerName := none, team := none, stat := "PTS", gamesUsed := 2,
    projection := 25, line := 14, edge := 11, absEdge := 11 }

/-- The v2 item produced from `prop0` over `[gLog1, gLog2]` in flat mode. -/
def v2Item0 : V2Item :=
  { date := "2025-01-05", source := "sgo", playerId := some "1", playerName := "Unknown",
    team := none, statType := some "points", line := 14, proj := 25, edge := 11,
    absEdge := 11, gp := 2 }

/-- A prop line carrying only a name and stat type (no player id). -/
def propNoId : PropLine :=
  { date := some "2025-01-05", playerName := some "Some Name",
    statType := some "points", line := some 14 }

/-- The snapshot `archive-date` captures from `dbDupKeys` for 2025-02-01. -/
def archiveDup : Archive := { ts := "t0", sgo := [propA, propB], hardrock := [] }

/-- Model of `dbDupKeys` immediately after archiving 2025-02-01, lines unchanged. -/
def dbDupArchived : DB := { dbDupKeys with propsArchive := [("2025-02-01", archiveDup)] }

/-- The spurious move the differ reports on the unchanged `dbDupArchived`:
`propA` (line 10) is compared against the last-indexed key collision
`propB` (line 20). -/
def moveAB : Move :=
  { date := "2025-02-01", source := "sgo", playerId := some "1", playerName := "Unknown",
    team := none, statType := some "points", openLine := 20, curLine := 10,
    delta := 10 - 20, absDelta := |(10:ℚ) - 20| }

/-- A prop line with no numeric line value. -/
def propNL : PropLine :=
  { date := some "2025-02-01", playerId := some "1", statType := some "points" }

def dbNL : DB := { sgoPropLines := [propNL] }

/-- Model of `dbNL` immediately after archiving 2025-02-01. -/
def dbNLArch : DB :=
  { dbNL with propsArchive := [("2025-02-01", archiveForDate dbNL "2025-02-01" "t0")] }

/-! ### Generic facts about the stable sort and the string order -/

theorem orderedInsert_perm (le : α → α → Bool) (a : α) (l : List α) :
    List.Perm (orderedInsert le a l) (a :: l) := by
  induction l with
  | nil => rfl
  | cons b l ih =>
    simp only [orderedInsert]
    split
    · rfl
    · exact (ih.cons b).trans (List.Perm.swap a b l)

theorem insSort_perm (le : α → α → Bool) (l : List α) : List.Perm (insSort le l) l := by
  induction l with
  | nil => rfl
  | cons a l ih => exact (orderedInsert_perm le a (insSort le l)).trans (ih.cons a)

theorem mem_insSort (le : α → α → Bool) {l : List α} {x : α} :
    x ∈ insSort le l ↔ x ∈ l :=
  (insSort_perm le l).mem_iff

theorem length_insSort (le : α → α → Bool) (l : List α) :
    (insSort le l).length = l.length :=
  (insSort_perm le l).length_eq

theorem sorted_orderedInsert (le : α → α → Bool)
    (htrans : ∀ a b c, le a b = true → le b c = true → le a c = true)
    (htot : ∀ a b, le a b || le b a) (a : α) (l : List α)
    (hl : l.Pairwise (fun x y => le x y = true)) :
    (orderedInsert le a l).Pairwise (fun x y => le x y = true) := by
  induction l with
  | nil => simp [orderedInsert]
  | cons b l ih =>
    rw [List.pairwise_cons] at hl
    obtain ⟨hb, hl'⟩ := hl
    simp only [orderedInsert]
    by_cases h : le a b = true
    · rw [if_pos h, List.pairwise_cons]
      refine ⟨?_, List.pairwise_cons.mpr ⟨hb, hl'⟩⟩
      intro x hx
      rcases List.mem_cons.mp hx with rfl | hx'
      · exact h
      · exact htrans a b x h (hb x hx')
    · rw [if_neg h, List.pairwise_cons]
      refine ⟨?_, ih hl'⟩
      intro x hx
      have hx2 : x ∈ a :: l := (orderedInsert_perm le a l).mem_iff.mp hx
      rcases List.mem_cons.mp hx2 with h' | hx'
      · have h2 := htot a b
        rw [Bool.not_eq_true] at h
        rw [h']
        simpa [h] using h2
      · exact hb x hx'

theorem sorted_insSort (le : α → α → Bool)
    (htrans : ∀ a b c, le a b = true → le b c = true → le a c = true)
    (htot : ∀ a b, le a b || le b a) (l : List α) :
    (insSort le l).Pairwise (fun x y => le x y = true) := by
  induction l with
  | nil => simp [insSort]
  | cons a l ih => exact sorted_orderedInsert le htrans htot a _ ih

theorem lexLe_total : ∀ as bs, lexLe as bs || lexLe bs as := by
  intro as
  induction as with
  | nil => intro bs; simp [lexLe]
  | cons a as ih =>
    intro bs
    cases bs with
    | nil => simp [lexLe]
    | cons b bs =>
      simp only [lexLe]
      rcases Nat.lt_trichotomy a.toNat b.toNat with h | h | h
      · simp [h]
      · have h1 : ¬ a.toNat < b.toNat := by omega
        have h2 : ¬ b.toNat < a.toNat := by omega
        simpa [h1, h2] using ih bs
      · have h2 : ¬ a.toNat < b.toNat := by omega
        simp [h, h2]

theorem lexLe_trans : ∀ as bs cs, lexLe as bs = true → lexLe bs cs = true →
    lexLe as cs = true := by
  intro as
  induction as with
  | nil => intro bs cs _ _; simp [lexLe]
  | cons a as ih =>
    intro bs cs hab hbc
    cases bs with
    | nil => simp [lexLe] at hab
    | cons b bs =>
      cases cs with
      | nil => simp [lexLe] at hbc
      | cons c cs =>
        simp only [lexLe] at hab hbc ⊢
        by_cases h1 : a.toNat < b.toNat
        · by_cases h2 : b.toNat < c.toNat
          · have : a.toNat < c.toNat := Nat.lt_trans h1 h2
            simp [this]
          · by_cases h3 : c.toNat < b.toNat
            · simp [h1, h2, h3] at hbc
            · have : a.toNat < c.toNat := by omega
              simp [this]
        · by_cases h1' : b.toNat < a.toNat
          · simp [h1, h1'] at hab
          · by_cases h2 : b.toNat < c.toNat
            · have : a.toNat < c.toNat := by omega
              simp [this]
            · by_cases h3 : c.toNat < b.toNat
              · simp [h2, h3] at hbc
              · have h4 : ¬ a.toNat < c.toNat := by omega
                have h5 : ¬ c.toNat < a.toNat := by omega
                simp only [h4, h5, if_false]
                simp only [h1, h1', if_false] at hab
                simp only [h2, h3, if_false] at hbc
                exact ih bs cs hab hbc

theorem strLeB_total (a b : String) : strLeB a b || strLeB b a := lexLe_total _ _

theorem strLeB_trans (a b c : String) (h1 : strLeB a b = true) (h2 : strLeB b c = true) :
    strLeB a c = true := lexLe_trans _ _ _ h1 h2

/-! ### Rounding facts -/

theorem round2_mono {a b : ℚ} (h : a ≤ b) : round2 a ≤ round2 b := by
  unfold round2
  have hf : ((⌊a * 100 + 1/2⌋ : ℤ) : ℚ) ≤ ((⌊b * 100 + 1/2⌋ : ℤ) : ℚ) := by
    exact_mod_cast Int.floor_mono (show a * 100 + 1/2 ≤ b * 100 + 1/2 by linarith)
  gcongr

theorem round3_mono {a b : ℚ} (h : a ≤ b) : round3 a ≤ round3 b := by
  unfold round3
  have hf : ((⌊a * 1000 + 1/2⌋ : ℤ) : ℚ) ≤ ((⌊b * 1000 + 1/2⌋ : ℤ) : ℚ) := by
    exact_mod_cast Int.floor_mono (show a * 1000 + 1/2 ≤ b * 1000 + 1/2 by linarith)
  gcongr

theorem round2_five : round2 5 = 5 := by
  have hf : (⌊(5:ℚ) * 100 + 1/2⌋ : ℤ) = 500 := by
    rw [Int.floor_eq_iff]
    norm_num
  unfold round2
  rw [hf]
  norm_num

theorem round3_five : round3 5 = 5 := by
  have hf : (⌊(5:ℚ) * 1000 + 1/2⌋ : ℤ) = 5000 := by
    rw [Int.floor_eq_iff]
    norm_num
  unfold round3
  rw [hf]
  norm_num

/-! ### The weighted-average loop in closed form -/

theorem weightedLoop_spec (field : StatField) (gamesN : ℕ) :
    ∀ (l : List GameLog) (i : ℕ) (acc : ℚ × ℚ),
    weightedLoop field gamesN l i acc =
      (acc.1 + ∑ j ∈ Finset.range l.length, ((gamesN : ℚ) - (i + j)),
       acc.2 + ∑ j ∈ Finset.range l.length, ((gamesN : ℚ) - (i + j)) *
         ((l.map (fun g => (fieldVal g field).getD 0)).getD j 0)) := by
  intro l
  induction l with
  | nil => intro i acc; simp [weightedLoop]
  | cons g rest ih =>
    intro i acc
    obtain ⟨w0, s0⟩ := acc
    simp only [weightedLoop]
    rw [ih]
    have h1 : ∑ j ∈ Finset.range (g :: rest).length, ((gamesN : ℚ) - (↑i + ↑j)) =
        (∑ j ∈ Finset.range rest.length, ((gamesN : ℚ) - (↑(i + 1) + ↑j))) + ((gamesN : ℚ) - ↑i) := by
      rw [List.length_cons, Finset.sum_range_succ']
      congr 1
      · apply Finset.sum_congr rfl
        intro j _
        push_cast
        ring
      · push_cast
        ring
    have h2 : ∑ j ∈ Finset.range (g :: rest).length, ((gamesN : ℚ) - (↑i + ↑j)) *
          (((g :: rest).map (fun g => (fieldVal g field).getD 0)).getD j 0) =
        (∑ j ∈ Finset.range rest.length, ((gamesN : ℚ) - (↑(i + 1) + ↑j)) *
          ((rest.map (fun g => (fieldVal g field).getD 0)).getD j 0)) +
        ((gamesN : ℚ) - ↑i) * (fieldVal g field).getD 0 := by
      rw [List.length_cons, Finset.sum_range_succ']
      congr 1
      · apply Finset.sum_congr rfl
        intro j _
        rw [List.map_cons, List.getD_cons_succ]
        push_cast
        ring
      · rw [List.map_cons, List.getD_cons_zero]
        push_cast
        ring
    rw [h1, h2]
    simp only [Prod.mk.injEq]
    constructor <;> ring

theorem weightedAvg_wSum_pos (gamesN L : ℕ) (hL1 : 1 ≤ L) (hLN : L ≤ gamesN) :
    0 < ∑ j ∈ Finset.range L, ((gamesN : ℚ) - j) := by
  apply Finset.sum_pos
  · intro j hj
    have hjL : j < L := Finset.mem_range.mp hj
    have : (j : ℚ) < gamesN := by exact_mod_cast lt_of_lt_of_le hjL hLN
    linarith
  · exact Finset.nonempty_range_iff.mpr (by omega)

/-- Model of `weightedAvg` on a nonempty window: gp is the window length and the value
is exactly the `N - i`-weighted mean of the window values. -/
theorem weightedAvg_spec (arr : List GameLog) (field : StatField) (gamesN : ℕ)
    (hne : arr.take gamesN ≠ []) :
    weightedAvg arr field gamesN =
      ⟨(arr.take gamesN).length,
       some ((∑ j ∈ Finset.range (arr.take gamesN).length,
                ((gamesN : ℚ) - j) * (((arr.take gamesN).map (fun g => (fieldVal g field).getD 0)).getD j 0)) /
             (∑ j ∈ Finset.range (arr.take gamesN).length, ((gamesN : ℚ) - j)))⟩ := by
  have hL1 : 1 ≤ (arr.take gamesN).length := List.length_pos.mpr hne
  have hLN : (arr.take gamesN).length ≤ gamesN := by
    rw [List.length_take]; omega
  have hpos := weightedAvg_wSum_pos gamesN (arr.take gamesN).length hL1 hLN
  have hisEmpty : (arr.take gamesN).isEmpty = false := by
    cases h : arr.take gamesN with
    | nil => exact absurd h hne
    | cons a l => rfl
  simp only [weightedAvg, hisEmpty, Bool.false_eq_true, if_false]
  rw [weightedLoop_spec]
  have hz : ∀ j : ℕ, ((gamesN : ℚ) - (↑(0:ℕ) + ↑j)) = (gamesN : ℚ) - j := by
    intro j; push_cast; ring
  simp only [hz, zero_add]
  rw [if_neg (ne_of_gt hpos)]

/-! ## Claims -/

/-- Claim C1. In weighted projection mode with window size N, the i-th
most-recent collected value (0-based) receives weight `N - i` and the
projection is the weighted mean `Σ(weight·value)/Σ(weight)` (so with exactly
N collected values the newest is weighted `N - 0 = N` and the oldest
`N - (N-1) = 1`); for the two logs `{playerId:"1", gameDate:"2025-01-01",
pts:20}` and `{playerId:"1", gameDate:"2025-01-03", pts:30}` with N = 2 the
weighted projection is `(2·30 + 1·20)/3 = 80/3`, which rounds to 26.67 at
2 decimals. -/
theorem c1_weighted_projection :
    (∀ (arr : List GameLog) (field : StatField) (gamesN : ℕ),
      arr.take gamesN ≠ [] →
      weightedAvg arr field gamesN =
        ⟨(arr.take gamesN).length,
         some ((∑ j ∈ Finset.range (arr.take gamesN).length,
                  ((gamesN : ℚ) - j) * (((arr.take gamesN).map (fun g => (fieldVal g field).getD 0)).getD j 0)) /
               (∑ j ∈ Finset.range (arr.take gamesN).length, ((gamesN : ℚ) - j)))⟩)
    ∧ weightedAvg (v2Group [gLog1, gLog2] "1") .pts 2 = ⟨2, some (80/3)⟩
    ∧ (projectionsWeighted [gLog1, gLog2] 2).map (fun w => (w.playerId, w.gp, w.weightSum, w.pts)) =
        [("1", 2, 3, 80/3)]
    ∧ round2 (80/3) = 2667/100 := by
  refine ⟨fun arr field gamesN hne => weightedAvg_spec arr field gamesN hne, ?_, ?_, ?_⟩
  · have hg : v2Group [gLog1, gLog2] "1" = [gLog2, gLog1] := by decide
    rw [hg]
    simp [weightedAvg, weightedLoop, fieldVal, gLog1, gLog2]
    norm_num
  · have hids : v2PlayerIds [gLog1, gLog2] = ["1"] := by decide
    have hg : v2Group [gLog1, gLog2] "1" = [gLog2, gLog1] := by decide
    have hpid : gLog1.playerId.getD "" = "1" := by decide
    have hw : weightedProjForPlayer [gLog1, gLog2] 2 "1" =
        some { playerId := "1", playerName := none, gp := 2, gamesRequested := 2,
               weightSum := 3, pts := 80/3, reb := 0, ast := 0, fg3m := 0 } := by
      simp only [weightedProjForPlayer, hg]
      simp [wProjLoop, gLog1, gLog2]
      norm_num
    simp [projectionsWeighted, hids, hw, insSort, orderedInsert]
    simp only [hpid, hg]
    refine ⟨by decide, by norm_num, by norm_num, ?_⟩
    have h30 : gLog2.pts.getD 0 = 30 := by decide
    have h20 : gLog1.pts.getD 0 = 20 := by decide
    rw [h30, h20]
    norm_num
  · have hf : (⌊(80:ℚ)/3 * 100 + 1/2⌋ : ℤ) = 2667 := by
      rw [Int.floor_eq_iff]
      norm_num
    unfold round2
    rw [hf]
    norm_num

/-- Claim C1 witness: the universally quantified conjunct applied at the
concrete two-log window with N = 2. -/
theorem c1_weighted_projection_witness :
    ([gLog2, gLog1].take 2 ≠ ([] : List GameLog)) ∧
    weightedAvg [gLog2, gLog1] .pts 2 =
      ⟨([gLog2, gLog1].take 2).length,
       some ((∑ j ∈ Finset.range ([gLog2, gLog1].take 2).length,
                (((2:ℕ) : ℚ) - j) * ((([gLog2, gLog1].take 2).map (fun g => (fieldVal g .pts).getD 0)).getD j 0)) /
             (∑ j ∈ Finset.range ([gLog2, gLog1].take 2).length, (((2:ℕ) : ℚ) - j)))⟩ :=
  ⟨by decide, c1_weighted_projection.1 [gLog2, gLog1] .pts 2 (by decide)⟩

/-- Claim C2, counterexample. The claim says the prop
`{date:"2025-01-05", playerId:"1", statType:"points", line:24}` against
projection 26.67 gets tier C under the variant where tier B requires
`absEdge ≥ 2`; in fact `absEdge = 2.67 ≥ 2`, so that variant
(`edges-tiered-v2`) assigns tier B, not C. -/
theorem c2_tier_counterexample :
    ((2667/100 : ℚ) - 24 = 267/100) ∧ |(267/100 : ℚ)| = 267/100 ∧
    tierForAbsEdgeV2 (267/100) = "B" ∧ "B" ≠ "C" := by
  refine ⟨by norm_num, by rw [abs_of_nonneg] ; norm_num, ?_, by decide⟩
  unfold tierForAbsEdgeV2
  rw [if_neg (by norm_num), if_pos (by norm_num)]

/-- Helper for C3: if no log in the list carries a finite value for the
stat, the collection loop adds nothing. -/
theorem collectVals_all_none (stat : String) (gamesN : ℕ) :
    ∀ (l : List GameLog) (acc : List ℚ),
    (∀ g ∈ l, getStatFromLog g stat = none) →
    collectVals stat gamesN l acc = acc := by
  intro l
  induction l with
  | nil => intro acc _; rfl
  | cons g rest ih =>
    intro acc hall
    have hg := hall g (List.mem_cons_self g rest)
    simp only [collectVals, hg]
    split
    · rfl
    · exact ih acc (fun x hx => hall x (List.mem_cons_of_mem _ hx))

/-- Claim C2, amended. For projection 26.67 against line 24: `edge = 2.67`,
`absEdge = 2.67`, and the tier is B under the `≥ 1.5` threshold set
(`tierForAbsEdge`) and ALSO B under the `≥ 2` variant (`tierForAbsEdgeV2`),
since 2.67 ≥ 2. -/
theorem c2_edge_and_tiers :
    ((2667/100 : ℚ) - 24 = 267/100) ∧ |(267/100 : ℚ)| = 267/100 ∧
    tierForAbsEdge (267/100) = "B" ∧ tierForAbsEdgeV2 (267/100) = "B" := by
  refine ⟨by norm_num, by rw [abs_of_nonneg] ; norm_num, ?_, ?_⟩
  · unfold tierForAbsEdge
    rw [if_neg (by norm_num), if_pos (by norm_num)]
  · unfold tierForAbsEdgeV2
    rw [if_neg (by norm_num), if_pos (by norm_num)]

/-- Claim C3, counterexample. The claim covers the weighted projector
(`weightedAvg`, cited source) as well, but `weightedAvg` coerces a
missing stat to 0 (`Number(g[field] || 0)`): on a window consisting of one
log with no finite `pts` at all it still emits `{gp: 1, value: 0}` — a
projection built from zero finite values — instead of returning null. -/
theorem c3_weighted_emits_without_values :
    gLogBare.pts = none ∧ getStatFromLog gLogBare "PTS" = none ∧
    weightedAvg [gLogBare] .pts 10 = ⟨1, some 0⟩ := by
  refine ⟨rfl, by decide, ?_⟩
  simp [weightedAvg, weightedLoop, fieldVal, gLogBare]

/-- Claim C3, amended. `rollingProjection` (the Rolling Projector of
`edges-today-tiered`) emits a projection only when at least one matching log
yields a finite value for the target stat, returns null when zero valid
values are collected, and every emitted projection has `gamesUsed ≥ 1`;
the weighted helper of the v2/weighted endpoints, by contrast, only returns
null on an empty window (see the counterexample). -/
theorem c3_rolling_projection_guard :
    (∀ (logs : List GameLog) (key : PropKey) (stat : Option String) (gamesN : ℕ) (p : Projection),
      rollingProjection logs key stat gamesN = some p →
      1 ≤ p.gamesUsed ∧
      ∃ g ∈ logs, matchesPlayer key g ∧ getStatFromLog g p.stat ≠ none)
    ∧ (∀ (logs : List GameLog) (key : PropKey) (stat : Option String) (gamesN : ℕ) (statNorm : String),
      normalizeStatType stat = some statNorm →
      (∀ g ∈ logs, matchesPlayer key g → getStatFromLog g statNorm = none) →
      rollingProjection logs key stat gamesN = none) := by
  constructor
  · intro logs key stat gamesN p hp
    cases hnorm : normalizeStatType stat with
    | none =>
      simp only [rollingProjection, hnorm] at hp
      exact Option.noConfusion hp
    | some statN =>
      simp only [rollingProjection, hnorm] at hp
      by_cases hv : collectVals statN gamesN (insSort rpDateLE (logs.filter (matchesPlayer key))) [] = []
      · rw [if_pos hv] at hp; cases hp
      · rw [if_neg hv] at hp
        have hp' := Option.some.inj hp
        constructor
        · have hlen : 0 < (collectVals statN gamesN (insSort rpDateLE (logs.filter (matchesPlayer key))) []).length :=
            List.length_pos.mpr hv
          have : p.gamesUsed = (collectVals statN gamesN (insSort rpDateLE (logs.filter (matchesPlayer key))) []).length := by
            rw [← hp']
          omega
        · by_contra hno
          push_neg at hno
          have hstat : p.stat = statN := by rw [← hp']
          apply hv
          apply collectVals_all_none
          intro g hg
          have hg2 : g ∈ logs.filter (matchesPlayer key) := (mem_insSort rpDateLE).mp hg
          have hg3 := List.mem_filter.mp hg2
          have hgn := hno g hg3.1 hg3.2
          rw [← hstat]
          exact hgn
  · intro logs key stat gamesN statNorm hnorm hall
    simp only [rollingProjection, hnorm]
    rw [if_pos]
    apply collectVals_all_none
    intro g hg
    have hg2 := List.mem_filter.mp ((mem_insSort rpDateLE).mp hg)
    exact hall g hg2.1 hg2.2

/-- Claim C3 witness: the guard applied at a concrete one-log collection: the
projection over `[gLog1]` for "points" exists with `gamesUsed = 1`, and over
a bare log the projector returns null. -/
theorem c3_rolling_projection_guard_witness :
    (1 ≤ (Projection.mk "PTS" 1 20).gamesUsed ∧
      ∃ g ∈ [gLog1], matchesPlayer ⟨some "1", "", "points", ""⟩ g ∧
        getStatFromLog g (Projection.mk "PTS" 1 20).stat ≠ none) ∧
    rollingProjection [gLogBare] ⟨some "1", "", "points", ""⟩ (some "points") 10 = none := by
  have hval : rollingProjection [gLog1] ⟨some "1", "", "points", ""⟩ (some "points") 10 =
      some (Projection.mk "PTS" 1 20) := by
    have hnorm : normalizeStatType (some "points") = some "PTS" := by decide
    have hsort : insSort rpDateLE ([gLog1].filter (matchesPlayer ⟨some "1", "", "points", ""⟩)) =
        [gLog1] := by decide
    have hcv : collectVals "PTS" 10 [gLog1] [] = [20] := by decide
    simp only [rollingProjection, hnorm, hsort, hcv]
    norm_num
  constructor
  · exact c3_rolling_projection_guard.1 [gLog1] ⟨some "1", "", "points", ""⟩ (some "points") 10
      (Projection.mk "PTS" 1 20) hval
  · exact c3_rolling_projection_guard.2 [gLogBare] ⟨some "1", "", "points", ""⟩ (some "points") 10
      "PTS" (by decide) (by decide)


/-- Helper for C4: shape of one `top25` leaderboard. -/
theorem top25_shape (players : List PlayerAgg) (stat : String) :
    (top25 players stat).Pairwise (fun a b => b.perGame ≤ a.perGame) ∧
    (top25 players stat).length ≤ 25 ∧
    ∀ e ∈ top25 players stat, 1 ≤ e.gp := by
  unfold top25
  refine ⟨?_, ?_, ?_⟩
  · have hs := sorted_insSort (fun a b : LeaderEntry => decide (b.perGame ≤ a.perGame))
      (by intro a b c h1 h2
          simp only [decide_eq_true_eq] at *
          exact le_trans h2 h1)
      (by intro a b
          simp only [Bool.or_eq_true, decide_eq_true_eq]
          exact le_total b.perGame a.perGame)
      ((players.filter (fun p => 0 < p.gp)).map (fun p =>
        ⟨p.playerId, p.playerName, p.gp, round2 (aggStat p stat / (p.gp : ℚ))⟩))
    have htake := hs.sublist (List.take_sublist 25 _)
    exact htake.imp (fun h => of_decide_eq_true h)
  · exact List.length_take_le 25 _
  · intro e he
    have he2 : e ∈ insSort (fun a b : LeaderEntry => decide (b.perGame ≤ a.perGame))
        ((players.filter (fun p => 0 < p.gp)).map (fun p =>
          ⟨p.playerId, p.playerName, p.gp, round2 (aggStat p stat / (p.gp : ℚ))⟩)) :=
      List.take_subset 25 _ he
    have he3 := (mem_insSort _).mp he2
    obtain ⟨p, hp, rfl⟩ := List.mem_map.mp he3
    have hgp := (List.mem_filter.mp hp).2
    simp only [decide_eq_true_eq] at hgp
    exact hgp

/-- Claim C4. For every GameLog collection, each of the four leaderboards of
`computeLeadersFromLogs` is sorted non-increasing by `perGame`, has length at
most 25, and every included entry has `gp ≥ 1` (zero-gp players are filtered
out entirely before ranking). -/
theorem c4_leaderboards (logs : List GameLog) :
    ((computeLeadersFromLogs logs).points.Pairwise (fun a b => b.perGame ≤ a.perGame) ∧
      (computeLeadersFromLogs logs).points.length ≤ 25 ∧
      ∀ e ∈ (computeLeadersFromLogs logs).points, 1 ≤ e.gp) ∧
    ((computeLeadersFromLogs logs).rebounds.Pairwise (fun a b => b.perGame ≤ a.perGame) ∧
      (computeLeadersFromLogs logs).rebounds.length ≤ 25 ∧
      ∀ e ∈ (computeLeadersFromLogs logs).rebounds, 1 ≤ e.gp) ∧
    ((computeLeadersFromLogs logs).assists.Pairwise (fun a b => b.perGame ≤ a.perGame) ∧
      (computeLeadersFromLogs logs).assists.length ≤ 25 ∧
      ∀ e ∈ (computeLeadersFromLogs logs).assists, 1 ≤ e.gp) ∧
    ((computeLeadersFromLogs logs).threes.Pairwise (fun a b => b.perGame ≤ a.perGame) ∧
      (computeLeadersFromLogs logs).threes.length ≤ 25 ∧
      ∀ e ∈ (computeLeadersFromLogs logs).threes, 1 ≤ e.gp) := by
  simp only [computeLeadersFromLogs]
  exact ⟨top25_shape _ _, top25_shape _ _, top25_shape _ _, top25_shape _ _⟩


/-- A rational that is `m/100` for an integer `m` is a fixed point of `round2`. -/
theorem round2_eq_self (q : ℚ) (m : ℤ) (hm : q * 100 = (m : ℚ)) : round2 q = q := by
  unfold round2
  rw [hm]
  have hf : (⌊(m : ℚ) + 1/2⌋ : ℤ) = m := by
    rw [Int.floor_eq_iff]
    constructor <;> linarith
  rw [hf]
  linarith

theorem round3_eq_self (q : ℚ) (m : ℤ) (hm : q * 1000 = (m : ℚ)) : round3 q = q := by
  unfold round3
  rw [hm]
  have hf : (⌊(m : ℚ) + 1/2⌋ : ℤ) = m := by
    rw [Int.floor_eq_iff]
    constructor <;> linarith
  rw [hf]
  linarith

/-- Inversion lemma for the `edges-today-tiered` loop body: every produced
edge record passed the `absEdge < minEdge` filter on the unrounded absolute
edge, and its stored `absEdge` field is the 2-decimal rounding of it. -/
theorem edgeForProp_spec (logs : List GameLog) (gamesN : ℕ) (minEdge : ℚ)
    (useDate src : String) (p : PropLine) (e : EdgeItem)
    (h : edgeForProp logs gamesN minEdge useDate src p = some e) :
    ∃ (line : ℚ) (proj : Projection),
      extractPropLine p = some line ∧
      rollingProjection logs (extractPropKey p) p.statType gamesN = some proj ∧
      minEdge ≤ |proj.projection - line| ∧
      e.absEdge = round2 |proj.projection - line| ∧
      e.tier = tierForAbsEdge |proj.projection - line| := by
  cases hl : extractPropLine p with
  | none =>
    simp only [edgeForProp, hl] at h
    exact Option.noConfusion h
  | some line =>
    cases hproj : rollingProjection logs (extractPropKey p) p.statType gamesN with
    | none =>
      simp only [edgeForProp, hl, hproj] at h
      exact Option.noConfusion h
    | some proj =>
      simp only [edgeForProp, hl, hproj] at h
      by_cases hmin : |proj.projection - line| < minEdge
      · rw [if_pos hmin] at h; cases h
      · rw [if_neg hmin] at h
        have h2 := Option.some.inj h
        subst h2
        exact ⟨line, proj, rfl, rfl, not_lt.mp hmin, rfl, rfl⟩

/-- Inversion lemma for the v2 loop body: the prop's `playerId` is truthy and
carried into the item, the filter used the unrounded absolute edge, and the
stored `absEdge` is its 3-decimal rounding. -/
theorem v2EdgeForProp_spec (logs : List GameLog) (gamesN : ℕ) (minEdge : ℚ)
    (mode date src : String) (p : PropLine) (t : String) (e : V2Item)
    (h : v2EdgeForProp logs gamesN minEdge mode date src p = some (t, e)) :
    ∃ (playerId : String) (value line : ℚ),
      truthyS p.playerId = some playerId ∧
      e.playerId = some playerId ∧
      p.line = some line ∧
      minEdge ≤ |value - line| ∧
      e.absEdge = round3 |value - line| ∧
      t = tierForAbsEdgeV2 |value - line| := by
  cases hf : statToField p.statType with
  | none =>
    simp only [v2EdgeForProp, hf] at h
    exact Option.noConfusion h
  | some field =>
    cases hpid : truthyS p.playerId with
    | none =>
      simp only [v2EdgeForProp, hf, hpid] at h
      exact Option.noConfusion h
    | some playerId =>
      by_cases harr : (v2Group logs playerId).isEmpty
      · simp only [v2EdgeForProp, hf, hpid, harr, if_true] at h
        exact Option.noConfusion h
      · have harr' : (v2Group logs playerId).isEmpty = false := Bool.not_eq_true _ |>.mp harr
        cases hval : (if mode == "flat" then flatAvg (v2Group logs playerId) field gamesN
            else weightedAvg (v2Group logs playerId) field gamesN).value with
        | none =>
          simp only [v2EdgeForProp, hf, hpid, harr', Bool.false_eq_true, if_false, hval] at h
          exact Option.noConfusion h
        | some value =>
          cases hline : p.line with
          | none =>
            simp only [v2EdgeForProp, hf, hpid, harr', Bool.false_eq_true, if_false, hval, hline] at h
            exact Option.noConfusion h
          | some line =>
            simp only [v2EdgeForProp, hf, hpid, harr', Bool.false_eq_true, if_false, hval, hline] at h
            by_cases hmin : |value - line| < minEdge
            · rw [if_pos hmin] at h; cases h
            · rw [if_neg hmin] at h
              obtain ⟨ht, he⟩ := Prod.mk.inj (Option.some.inj h)
              subst ht
              subst he
              exact ⟨playerId, value, line, rfl, rfl, rfl, not_lt.mp hmin, rfl, rfl⟩


/-- Claim C6. Neither edge endpoint ever returns an entry whose absolute edge
was below the non-negative `minEdge` threshold: every returned entry's
`absEdge` field is the display rounding of an unrounded absolute edge that
passed `absEdge < minEdge → skip`; in particular with `minEdge = 5` every
returned entry's stored `absEdge` is ≥ 5. -/
theorem c6_min_edge_filter :
    (∀ (db : DB) (dateQ : String) (minEdge : ℚ) (gamesN : ℕ) (todayET : String)
        (r : Edges1Result) (e : EdgeItem),
      edgesTodayTiered db dateQ minEdge gamesN todayET = .ok r →
      0 ≤ minEdge → e ∈ r.edges →
      (∃ a : ℚ, minEdge ≤ a ∧ e.absEdge = round2 a) ∧ (minEdge = 5 → 5 ≤ e.absEdge))
    ∧ (∀ (db : DB) (dateQ : String) (gamesN : ℕ) (minEdgeQ : ℚ) (modeQ todayET : String) (e : V2Item),
      (e ∈ (edgesTieredV2 db dateQ gamesN minEdgeQ modeQ todayET).tiersA ∨
       e ∈ (edgesTieredV2 db dateQ gamesN minEdgeQ modeQ todayET).tiersB ∨
       e ∈ (edgesTieredV2 db dateQ gamesN minEdgeQ modeQ todayET).tiersC) →
      (∃ a : ℚ, max 0 minEdgeQ ≤ a ∧ e.absEdge = round3 a) ∧ (minEdgeQ = 5 → 5 ≤ e.absEdge)) := by
  constructor
  · intro db dateQ minEdge gamesN todayET r e h hmin hmem
    by_cases hd : (decide (dateQ ≠ "") && !isValidISODate dateQ) = true
    · simp only [edgesTodayTiered, hd, if_true] at h
      exact Except.noConfusion h
    · have hd' : (decide (dateQ ≠ "") && !isValidISODate dateQ) = false := by
        rw [Bool.not_eq_true] at hd; exact hd
      simp only [edgesTodayTiered, hd', Bool.false_eq_true, if_false] at h
      have hr := Except.ok.inj h
      rw [← hr] at hmem
      simp only at hmem
      have hmem2 := (mem_insSort edgeSortLE).mp hmem
      obtain ⟨ps, hps, hE⟩ := List.mem_filterMap.mp hmem2
      obtain ⟨line, proj, _, _, hge, habs, _⟩ :=
        edgeForProp_spec db.nbaPlayerGameLogs gamesN minEdge _ ps.2 ps.1 e hE
      refine ⟨⟨|proj.projection - line|, hge, habs⟩, ?_⟩
      intro h5
      rw [habs]
      calc (5:ℚ) = round2 5 := round2_five.symm
        _ ≤ round2 |proj.projection - line| := round2_mono (h5 ▸ hge)
  · intro db dateQ gamesN minEdgeQ modeQ todayET e hmem
    have key : ∀ t0 : String,
        e ∈ insSort v2AbsLE
          ((((v2PropsForDate db (v2UseDate dateQ todayET)).filterMap
              (fun ps => v2EdgeForProp db.nbaPlayerGameLogs gamesN (max 0 minEdgeQ)
                (strLower modeQ) (v2UseDate dateQ todayET) ps.2 ps.1)).filter
            (fun ti => ti.1 == t0)).map (·.2)) →
        (∃ a : ℚ, max 0 minEdgeQ ≤ a ∧ e.absEdge = round3 a) ∧ (minEdgeQ = 5 → 5 ≤ e.absEdge) := by
      intro t0 hm
      have hm2 := (mem_insSort v2AbsLE).mp hm
      obtain ⟨ti, hti, hE⟩ := List.mem_map.mp hm2
      have hti2 := (List.mem_filter.mp hti).1
      obtain ⟨ps, hps, hfm⟩ := List.mem_filterMap.mp hti2
      obtain ⟨pid, value, line, _, _, _, hge, habs, _⟩ :=
        v2EdgeForProp_spec db.nbaPlayerGameLogs gamesN (max 0 minEdgeQ) (strLower modeQ)
          (v2UseDate dateQ todayET) ps.2 ps.1 ti.1 ti.2 (by rw [hfm])
      rw [← hE]
      refine ⟨⟨|value - line|, hge, habs⟩, ?_⟩
      intro h5
      subst h5
      rw [habs]
      have h5le : (5:ℚ) ≤ |value - line| := le_trans (le_max_right 0 5) hge
      calc (5:ℚ) = round3 5 := round3_five.symm
        _ ≤ round3 |value - line| := round3_mono h5le
    rcases hmem with hA | hB | hC
    · exact key "A" hA
    · exact key "B" hB
    · exact key "C" hC


/-- Concrete end-to-end run of `edges-today-tiered` on `dbEdge`. -/
theorem edgesTodayTiered_dbEdge_eval :
    edgesTodayTiered dbEdge "2025-01-05" 5 10 "2025-01-05" =
      .ok { todayET := "2025-01-05", date := "2025-01-05", minEdge := 5, gamesN := 10,
            edges := [edgeItem0], tierA := [edgeItem0], tierB := [], tierC := [] } := by
  have hproj : rollingProjection [gLog1, gLog2] (extractPropKey prop0) prop0.statType 10 =
      some ⟨"PTS", 2, 25⟩ := by
    have hnorm : normalizeStatType prop0.statType = some "PTS" := by decide
    have hsort : insSort rpDateLE ([gLog1, gLog2].filter (matchesPlayer (extractPropKey prop0))) =
        [gLog2, gLog1] := by decide
    have hcv : collectVals "PTS" 10 [gLog2, gLog1] [] = [30, 20] := by decide
    simp only [rollingProjection, hnorm, hcv, hsort]
    rw [if_neg (show ¬([30, 20] : List ℚ) = [] by decide)]
    norm_num
  have hE : edgeForProp [gLog1, gLog2] 10 5 "2025-01-05" "sgo" prop0 = some edgeItem0 := by
    have hline : extractPropLine prop0 = some 14 := rfl
    simp only [edgeForProp, hline, hproj]
    have habs : |(25:ℚ) - 14| = 11 := by norm_num
    rw [habs, if_neg (by norm_num)]
    have h25 : round2 25 = 25 := round2_eq_self 25 2500 (by norm_num)
    have h14 : round2 14 = 14 := round2_eq_self 14 1400 (by norm_num)
    have h11 : round2 ((25:ℚ) - 14) = 11 := by
      rw [show ((25:ℚ) - 14) = 11 by norm_num]
      exact round2_eq_self 11 1100 (by norm_num)
    have h11' : round2 (11:ℚ) = 11 := round2_eq_self 11 1100 (by norm_num)
    have htier : tierForAbsEdge 11 = "A" := by
      unfold tierForAbsEdge
      rw [if_pos (by norm_num)]
    rw [h25, h14, h11, h11', htier]
    have hkey : extractPropKey prop0 = ⟨some "1", "", "points", ""⟩ := by decide
    rw [hkey]
    rfl
  have hprops : propsForDate1 dbEdge "2025-01-05" = [(prop0, "sgo")] := by decide
  have hvalid : (decide (("2025-01-05" : String) ≠ "") && !isValidISODate "2025-01-05") = false := by
    decide
  have hlogs : dbEdge.nbaPlayerGameLogs = [gLog1, gLog2] := rfl
  simp only [edgesTodayTiered, hvalid, Bool.false_eq_true, if_false]
  rw [if_pos (by decide)]
  rw [hprops, hlogs]
  simp only [List.filterMap, hE]
  refine congrArg Except.ok ?_
  decide

/-- Claim C6 witness: the filter theorem applied to the one edge the concrete
`dbEdge` run returns under `minEdge = 5`. -/
theorem c6_min_edge_filter_witness :
    (∃ a : ℚ, (5:ℚ) ≤ a ∧ edgeItem0.absEdge = round2 a) ∧ ((5:ℚ) = 5 → 5 ≤ edgeItem0.absEdge) :=
  c6_min_edge_filter.1 dbEdge "2025-01-05" 5 10 "2025-01-05"
    { todayET := "2025-01-05", date := "2025-01-05", minEdge := 5, gamesN := 10,
      edges := [edgeItem0], tierA := [edgeItem0], tierB := [], tierC := [] } edgeItem0
    edgesTodayTiered_dbEdge_eval (by norm_num) (by simp)


/-- Claim C10. In the v2 tiered-edges computation a prop without a (truthy)
`playerId` never produces an edge, whatever its `playerName` says; every
emitted item carries the prop's `playerId`, matched by id equality only; and
the `byPlayer` grouping holds exactly the logs with both a truthy `playerId`
(equal to the group key) and a truthy `gameDate`. -/
theorem c10_v2_id_only_matching :
    (∀ (logs : List GameLog) (gamesN : ℕ) (minEdge : ℚ) (mode date src : String) (p : PropLine),
      truthyS p.playerId = none →
      ∀ name : Option String,
        v2EdgeForProp logs gamesN minEdge mode date src { p with playerName := name } = none)
    ∧ (∀ (logs : List GameLog) (pid : String) (g : GameLog),
      g ∈ v2Group logs pid →
      g.playerId = some pid ∧ truthyS g.playerId ≠ none ∧ truthyS g.gameDate ≠ none)
    ∧ (∀ (logs : List GameLog) (gamesN : ℕ) (minEdge : ℚ) (mode date src : String)
        (p : PropLine) (t : String) (e : V2Item),
      v2EdgeForProp logs gamesN minEdge mode date src p = some (t, e) →
      ∃ pid, truthyS p.playerId = some pid ∧ e.playerId = some pid) := by
  refine ⟨?_, ?_, ?_⟩
  · intro logs gamesN minEdge mode date src p hpid name
    have hstat : ({ p with playerName := name } : PropLine).statType = p.statType := rfl
    have hid : ({ p with playerName := name } : PropLine).playerId = p.playerId := rfl
    cases hf : statToField p.statType with
    | none => simp only [v2EdgeForProp, hstat, hf]
    | some field => simp only [v2EdgeForProp, hstat, hf, hid, hpid]
  · intro logs pid g hg
    have hg2 := (mem_insSort v2DateLE).mp hg
    have hg3 := List.mem_filter.mp hg2
    have hvalid := (List.mem_filter.mp hg3.1).2
    have hpid := hg3.2
    simp only [beq_iff_eq] at hpid
    simp only [v2ValidLog, Bool.and_eq_true, Option.isSome_iff_ne_none] at hvalid
    exact ⟨hpid, hvalid.1, hvalid.2⟩
  · intro logs gamesN minEdge mode date src p t e h
    obtain ⟨pid, value, line, hpid, hepid, _, _, _, _⟩ :=
      v2EdgeForProp_spec logs gamesN minEdge mode date src p t e h
    exact ⟨pid, hpid, hepid⟩

/-- Concrete evaluation of the v2 loop body on `prop0` in flat mode. -/
theorem v2EdgeForProp_prop0_eval :
    v2EdgeForProp [gLog1, gLog2] 10 0 "flat" "2025-01-05" "sgo" prop0 = some ("A", v2Item0) := by
  have hf : statToField prop0.statType = some .pts := by decide
  have hpid : truthyS prop0.playerId = some "1" := by decide
  have hg : v2Group [gLog1, gLog2] "1" = [gLog2, gLog1] := by decide
  have hflat : flatAvg (v2Group [gLog1, gLog2] "1") .pts 10 = ⟨2, some 25⟩ := by
    rw [hg]
    simp [flatAvg, fieldVal, gLog1, gLog2]
    norm_num
  simp only [v2EdgeForProp, hf, hpid, hflat]
  rw [if_neg (by rw [hg]; decide)]
  simp only [show (("flat" : String) == "flat") = true by decide, if_true, hflat]
  have hline : prop0.line = some 14 := rfl
  simp only [hline]
  rw [if_neg (by norm_num)]
  have h25 : round3 (25 : ℚ) = 25 := round3_eq_self 25 25000 (by norm_num)
  have h11 : round3 ((25:ℚ) - 14) = 11 := by
    rw [show ((25:ℚ) - 14) = 11 by norm_num]
    exact round3_eq_self 11 11000 (by norm_num)
  have h11' : round3 |(25:ℚ) - 14| = 11 := by
    rw [show |(25:ℚ) - 14| = 11 by norm_num]
    exact round3_eq_self 11 11000 (by norm_num)
  have htier : tierForAbsEdgeV2 |(25:ℚ) - 14| = "A" := by
    rw [show |(25:ℚ) - 14| = 11 by norm_num]
    unfold tierForAbsEdgeV2
    rw [if_pos (by norm_num)]
  rw [h25, h11, h11', htier, hg]
  refine congrArg some ?_
  refine congrArg (Prod.mk "A") ?_
  decide

/-- Claim C10 witness: the three conjuncts at concrete inputs — the no-id prop
is skipped regardless of any name, `gLog1` sits in its own id group, and the
emitted flat-mode item for `prop0` carries `playerId = "1"`. -/
theorem c10_v2_id_only_matching_witness :
    (v2EdgeForProp [gLog1, gLog2] 10 0 "flat" "2025-01-05" "sgo"
        { propNoId with playerName := some "Another Name" } = none) ∧
    (gLog1.playerId = some "1" ∧ truthyS gLog1.playerId ≠ none ∧ truthyS gLog1.gameDate ≠ none) ∧
    (∃ pid, truthyS prop0.playerId = some pid ∧ v2Item0.playerId = some pid) :=
  ⟨c10_v2_id_only_matching.1 [gLog1, gLog2] 10 0 "flat" "2025-01-05" "sgo" propNoId
      (by decide) (some "Another Name"),
   c10_v2_id_only_matching.2.1 [gLog1, gLog2] "1" gLog1 (by decide),
   c10_v2_id_only_matching.2.2 [gLog1, gLog2] 10 0 "flat" "2025-01-05" "sgo" prop0 "A" v2Item0
      v2EdgeForProp_prop0_eval⟩


theorem lexLe_refl : ∀ as, lexLe as as = true := by
  intro as
  induction as with
  | nil => rfl
  | cons a as ih =>
    simp only [lexLe]
    have h : ¬ a.toNat < a.toNat := by omega
    simp [h, ih]

theorem strLeB_refl (a : String) : strLeB a a = true := lexLe_refl _

/-- In a list sorted by `le`, every element is `le` the last element. -/
theorem pairwise_getLastQ (le : α → α → Bool) :
    ∀ (l : List α), l.Pairwise (fun x y => le x y = true) →
    ∀ x ∈ l, ∀ y, l.getLast? = some y → x = y ∨ le x y = true := by
  intro l
  induction l with
  | nil => intro _ x hx; cases hx
  | cons a t ih =>
    intro hp x hx y hy
    rw [List.pairwise_cons] at hp
    cases t with
    | nil =>
      rcases List.mem_singleton.mp hx with rfl
      left
      have hxx : ([x] : List α).getLast? = some x := rfl
      rw [hxx] at hy
      exact Option.some.inj hy
    | cons b t2 =>
      have hy2 : (b :: t2).getLast? = some y := hy
      have hymem : y ∈ b :: t2 := List.mem_of_mem_getLast? hy2
      rcases List.mem_cons.mp hx with rfl | hx'
      · right
        exact hp.1 y hymem
      · exact ih hp.2 x hx' y hy2

/-- The "nearest upcoming, else most recent past, else today" rule, proved
about the shared shape of the omitted-date resolutions. -/
theorem resolveRule_spec (arr : List String) (todayET res : String)
    (hres : res = (if uniqSortedDates arr = [] then todayET
      else match (uniqSortedDates arr).filter (fun d => strLeB todayET d) with
        | d :: _ => d
        | [] => (uniqSortedDates arr).getLast?.getD todayET)) :
    (uniqSortedDates arr = [] → res = todayET) ∧
    ((∃ d ∈ uniqSortedDates arr, strLeB todayET d = true) →
      res ∈ uniqSortedDates arr ∧ strLeB todayET res = true ∧
      ∀ d ∈ uniqSortedDates arr, strLeB todayET d = true → strLeB res d = true) ∧
    (uniqSortedDates arr ≠ [] →
      (∀ d ∈ uniqSortedDates arr, strLeB todayET d = false) →
      res ∈ uniqSortedDates arr ∧ ∀ d ∈ uniqSortedDates arr, strLeB d res = true) := by
  have hs : (uniqSortedDates arr).Pairwise (fun x y => strLeB x y = true) :=
    sorted_insSort strLeB strLeB_trans strLeB_total _
  refine ⟨?_, ?_, ?_⟩
  · intro hnil
    rw [hres, if_pos hnil]
  · intro ⟨d, hd, hdle⟩
    have hne : uniqSortedDates arr ≠ [] := List.ne_nil_of_mem hd
    have hdf : d ∈ (uniqSortedDates arr).filter (fun d => strLeB todayET d) :=
      List.mem_filter.mpr ⟨hd, hdle⟩
    cases hfeq : (uniqSortedDates arr).filter (fun d => strLeB todayET d) with
    | nil => rw [hfeq] at hdf; cases hdf
    | cons f rest =>
      have hres2 : res = f := by rw [hres, if_neg hne, hfeq]
      have hff : f ∈ (uniqSortedDates arr).filter (fun d => strLeB todayET d) := by
        rw [hfeq]; exact List.mem_cons_self f rest
      have hf2 := List.mem_filter.mp hff
      subst hres2
      refine ⟨hf2.1, hf2.2, ?_⟩
      intro d' hd' hdle'
      have hd'f : d' ∈ (uniqSortedDates arr).filter (fun d => strLeB todayET d) :=
        List.mem_filter.mpr ⟨hd', hdle'⟩
      rw [hfeq] at hd'f
      rcases List.mem_cons.mp hd'f with rfl | hrest
      · exact strLeB_refl _
      · have hpf : ((uniqSortedDates arr).filter (fun d => strLeB todayET d)).Pairwise
            (fun x y => strLeB x y = true) := hs.filter _
        rw [hfeq, List.pairwise_cons] at hpf
        exact hpf.1 d' hrest
  · intro hne hall
    have hfil : (uniqSortedDates arr).filter (fun d => strLeB todayET d) = [] := by
      rw [List.filter_eq_nil_iff]
      intro d hd
      rw [hall d hd]
      exact Bool.false_ne_true
    cases hlq : (uniqSortedDates arr).getLast? with
    | none => exact absurd (List.getLast?_eq_none_iff.mp hlq) hne
    | some y =>
      have hres2 : res = y := by
        rw [hres, if_neg hne, hfil, hlq]
        rfl
      subst hres2
      refine ⟨List.mem_of_mem_getLast? hlq, ?_⟩
      intro d hd
      rcases pairwise_getLastQ strLeB _ hs d hd _ hlq with rfl | hle
      · exact strLeB_refl _
      · exact hle

/-- Claim C7, counterexample. With one known prop-line date "2025-01-15" and
today "2025-01-10", `edges-today-tiered` resolves an omitted date to the
upcoming "2025-01-15" (the canonical active-date value), but
`edges-tiered-v2` resolves it to today "2025-01-10": the canonical policy is
NOT applied by every edge-computation operation. -/
theorem c7_v2_ignores_active_date :
    resolveDate1 dbFutureProp "2025-01-10" = "2025-01-15" ∧
    activeDate dbFutureProp "2025-01-10" = "2025-01-15" ∧
    v2UseDate "" "2025-01-10" = "2025-01-10" ∧
    (edgesTieredV2 dbFutureProp "" 10 0 "weighted" "2025-01-10").date = "2025-01-10" ∧
    v2UseDate "" "2025-01-10" ≠ resolveDate1 dbFutureProp "2025-01-10" := by
  refine ⟨by decide, by decide, by decide, ?_, by decide⟩
  show v2UseDate "" "2025-01-10" = "2025-01-10"
  decide

/-- Claim C7, amended. `edges-today-tiered` (and the `active-date` endpoint)
resolve an omitted date by the canonical rule — the earliest known date ≥
today, else the latest known date, else today — where `edges-today-tiered`
consults only live prop-line dates while `active-date` also includes archive
keys; `edges-tiered-v2`, by contrast, resolves an omitted date to today
directly. -/
theorem c7_date_resolution :
    (∀ (db : DB) (todayET : String),
      (uniqSortedDates (livePropDates db) = [] → resolveDate1 db todayET = todayET) ∧
      ((∃ d ∈ uniqSortedDates (livePropDates db), strLeB todayET d = true) →
        resolveDate1 db todayET ∈ uniqSortedDates (livePropDates db) ∧
        strLeB todayET (resolveDate1 db todayET) = true ∧
        ∀ d ∈ uniqSortedDates (livePropDates db), strLeB todayET d = true →
          strLeB (resolveDate1 db todayET) d = true) ∧
      (uniqSortedDates (livePropDates db) ≠ [] →
        (∀ d ∈ uniqSortedDates (livePropDates db), strLeB todayET d = false) →
        resolveDate1 db todayET ∈ uniqSortedDates (livePropDates db) ∧
        ∀ d ∈ uniqSortedDates (livePropDates db), strLeB d (resolveDate1 db todayET) = true)) ∧
    (∀ (db : DB) (todayET : String),
      (uniqSortedDates (livePropDates db ++ db.propsArchive.map (·.1)) = [] →
        activeDate db todayET = todayET) ∧
      ((∃ d ∈ uniqSortedDates (livePropDates db ++ db.propsArchive.map (·.1)),
          strLeB todayET d = true) →
        activeDate db todayET ∈ uniqSortedDates (livePropDates db ++ db.propsArchive.map (·.1)) ∧
        strLeB todayET (activeDate db todayET) = true ∧
        ∀ d ∈ uniqSortedDates (livePropDates db ++ db.propsArchive.map (·.1)),
          strLeB todayET d = true → strLeB (activeDate db todayET) d = true) ∧
      (uniqSortedDates (livePropDates db ++ db.propsArchive.map (·.1)) ≠ [] →
        (∀ d ∈ uniqSortedDates (livePropDates db ++ db.propsArchive.map (·.1)),
          strLeB todayET d = false) →
        activeDate db todayET ∈ uniqSortedDates (livePropDates db ++ db.propsArchive.map (·.1)) ∧
        ∀ d ∈ uniqSortedDates (livePropDates db ++ db.propsArchive.map (·.1)),
          strLeB d (activeDate db todayET) = true)) ∧
    (∀ (dateQ todayET : String), strTrim dateQ = "" →
      v2UseDate dateQ todayET = todayET) := by
  refine ⟨?_, ?_, ?_⟩
  · intro db todayET
    exact resolveRule_spec (livePropDates db) todayET (resolveDate1 db todayET) rfl
  · intro db todayET
    exact resolveRule_spec (livePropDates db ++ db.propsArchive.map (·.1)) todayET
      (activeDate db todayET) rfl
  · intro dateQ todayET h
    simp [v2UseDate, h]

/-- Claim C7 witness: the rule applied at concrete inputs — with the single
known date "2025-01-15" and today "2025-01-10" the endpoint-1 resolution is
an upcoming member date, and with an omitted v2 date the result is today. -/
theorem c7_date_resolution_witness :
    (resolveDate1 dbFutureProp "2025-01-10" ∈ uniqSortedDates (livePropDates dbFutureProp) ∧
      strLeB "2025-01-10" (resolveDate1 dbFutureProp "2025-01-10") = true ∧
      ∀ d ∈ uniqSortedDates (livePropDates dbFutureProp), strLeB "2025-01-10" d = true →
        strLeB (resolveDate1 dbFutureProp "2025-01-10") d = true) ∧
    v2UseDate "" "2025-01-10" = "2025-01-10" :=
  ⟨(c7_date_resolution.1 dbFutureProp "2025-01-10").2.1 ⟨"2025-01-15", by decide, by decide⟩,
   c7_date_resolution.2.2 "" "2025-01-10" (by decide)⟩


/-- Claim C8, counterexample. `edges-tiered-v2` does not reject a malformed
explicit date: with date "not-a-date" it returns a normal (ok) result whose
target date is the malformed string itself (matching no props), so "every
edge-computation operation rejects with a validation error" is false. -/
theorem c8_v2_accepts_invalid_date :
    isValidISODate "not-a-date" = false ∧
    (∃ r : V2Result, edgesTieredV2Run dbEdge "not-a-date" 10 0 "weighted" "2025-01-05" = .ok r ∧
      r.date = "not-a-date") ∧
    ¬(∃ msg : String, edgesTieredV2Run dbEdge "not-a-date" 10 0 "weighted" "2025-01-05" = .error msg) := by
  refine ⟨by decide, ⟨edgesTieredV2 dbEdge "not-a-date" 10 0 "weighted" "2025-01-05", rfl, ?_⟩, ?_⟩
  · show v2UseDate "not-a-date" "2025-01-05" = "not-a-date"
    decide
  · rintro ⟨msg, hmsg⟩
    exact Except.noConfusion hmsg

/-- Claim C8, amended. `edges-today-tiered` rejects a request with a validation
error exactly when an explicitly supplied date is malformed (per-record data
problems never make it fail: with an omitted or well-formed date it returns
ok on every database); `edges-tiered-v2` never rejects at all — it silently
uses whatever date string was supplied. -/
theorem c8_date_validation :
    (∀ (db : DB) (dateQ : String) (minEdge : ℚ) (gamesN : ℕ) (todayET : String),
      (∃ msg, edgesTodayTiered db dateQ minEdge gamesN todayET = .error msg) ↔
        (dateQ ≠ "" ∧ isValidISODate dateQ = false)) ∧
    (∀ (db : DB) (dateQ : String) (gamesN : ℕ) (minEdgeQ : ℚ) (modeQ todayET : String),
      (edgesTieredV2Run db dateQ gamesN minEdgeQ modeQ todayET).isOk = true) := by
  constructor
  · intro db dateQ minEdge gamesN todayET
    by_cases hd : (decide (dateQ ≠ "") && !isValidISODate dateQ) = true
    · simp only [edgesTodayTiered, hd, if_true]
      constructor
      · intro _
        rw [Bool.and_eq_true, decide_eq_true_eq, Bool.not_eq_true'] at hd
        exact hd
      · intro _
        exact ⟨_, rfl⟩
    · have hd' : (decide (dateQ ≠ "") && !isValidISODate dateQ) = false :=
        (Bool.not_eq_true _).mp hd
      simp only [edgesTodayTiered, hd', Bool.false_eq_true, if_false]
      constructor
      · rintro ⟨msg, hmsg⟩
        exact Except.noConfusion hmsg
      · intro hcond
        exfalso
        apply hd
        rw [Bool.and_eq_true, decide_eq_true_eq, Bool.not_eq_true']
        exact hcond
  · intro db dateQ gamesN minEdgeQ modeQ todayET
    rfl

/-- Claim C8 witness: endpoint 1 rejects the malformed date "not-a-date" while
the v2 endpoint returns ok on the same request. -/
theorem c8_date_validation_witness :
    (∃ msg, edgesTodayTiered dbEdge "not-a-date" 0 10 "2025-01-05" = .error msg) ∧
    (edgesTieredV2Run dbEdge "not-a-date" 10 0 "weighted" "2025-01-05").isOk = true :=
  ⟨(c8_date_validation.1 dbEdge "not-a-date" 0 10 "2025-01-05").mpr ⟨by decide, by decide⟩,
   c8_date_validation.2 dbEdge "not-a-date" 10 0 "weighted" "2025-01-05"⟩

/-- Claim C9. When the (well-formed) requested date has no archive snapshot,
`line-moves` succeeds: it returns an ok result with `exists:false`, an empty
move list and an informational message — distinguishable from the
validation-error rejection, which is the only error path. -/
theorem c9_line_moves_missing_archive :
    ∀ (db : DB) (dateQ sourceQ : String) (limit : ℕ),
      strTrim dateQ ≠ "" → isValidISODate (strTrim dateQ) = true →
      archiveLookup db (strTrim dateQ) = none →
      lineMoves db dateQ sourceQ limit =
        .ok { date := strTrim dateQ, archiveFound := false, archivedAt := none,
              source := strLower sourceQ,
              note := some "No archive for this date. Run POST /api/props/archive-date first.",
              movesCount := 0, moves := [] } := by
  intro db dateQ sourceQ limit h1 h2 h3
  have hcond : (!(decide (strTrim dateQ ≠ "") && isValidISODate (strTrim dateQ))) = false := by
    rw [decide_eq_true h1, h2]
    rfl
  simp only [lineMoves, hcond, Bool.false_eq_true, if_false, h3]

/-- Claim C9 witness: the empty database and the claim's scenario date
"2025-02-01" — an ok `exists:false` result with zero moves. -/
theorem c9_line_moves_missing_archive_witness :
    lineMoves {} "2025-02-01" "all" 50 =
      .ok { date := "2025-02-01", archiveFound := false, archivedAt := none,
            source := "all",
            note := some "No archive for this date. Run POST /api/props/archive-date first.",
            movesCount := 0, moves := [] } :=
  c9_line_moves_missing_archive {} "2025-02-01" "all" 50 (by decide) (by decide) (by decide)


/-- Every move `compareCurrent` emits has a nonzero delta that is exactly
`curLine - openLine`, with `absDelta` its absolute value. -/
theorem compareCurrent_mem_spec (arcIdx : List (String × (PropLine × ℚ))) (date srcTag : String)
    (list : List PropLine) (m : Move) (hm : m ∈ compareCurrent arcIdx date srcTag list) :
    m.delta = m.curLine - m.openLine ∧ m.delta ≠ 0 ∧ m.absDelta = |m.curLine - m.openLine| := by
  obtain ⟨p, hp, hE⟩ := List.mem_filterMap.mp hm
  cases harc : arcGet arcIdx (keyOf p) with
  | none =>
    simp only [harc] at hE
    exact Option.noConfusion hE
  | some pr =>
    obtain ⟨op, openLine⟩ := pr
    cases hline : p.line with
    | none =>
      simp only [harc, hline] at hE
      exact Option.noConfusion hE
    | some cur =>
      simp only [harc, hline] at hE
      by_cases hz : |cur - openLine| = 0
      · rw [if_pos hz] at hE
        exact Option.noConfusion hE
      · rw [if_neg hz] at hE
        have hEm := Option.some.inj hE
        subst hEm
        exact ⟨rfl, abs_ne_zero.mp hz, rfl⟩

/-- Part (a) of C5 at the endpoint level: every move an ok `line-moves`
response carries satisfies the delta identities. -/
theorem lineMoves_ok_moves (db : DB) (dateQ sourceQ : String) (limit : ℕ) (r : MovesResult)
    (h : lineMoves db dateQ sourceQ limit = .ok r) (m : Move) (hm : m ∈ r.moves) :
    m.delta = m.curLine - m.openLine ∧ m.delta ≠ 0 ∧ m.absDelta = |m.curLine - m.openLine| := by
  by_cases hv : (!(decide (strTrim dateQ ≠ "") && isValidISODate (strTrim dateQ))) = true
  · simp only [lineMoves, hv, if_true] at h
    exact Except.noConfusion h
  · have hv' : (!(decide (strTrim dateQ ≠ "") && isValidISODate (strTrim dateQ))) = false :=
      (Bool.not_eq_true _).mp hv
    cases hlook : archiveLookup db (strTrim dateQ) with
    | none =>
      simp only [lineMoves, hv', Bool.false_eq_true, if_false, hlook] at h
      have hr := Except.ok.inj h
      rw [← hr] at hm
      simp only at hm
      exact absurd hm (List.not_mem_nil m)
    | some archive =>
      simp only [lineMoves, hv', Bool.false_eq_true, if_false, hlook] at h
      have hr := Except.ok.inj h
      rw [← hr] at hm
      simp only at hm
      have hm2 := List.take_subset limit _ hm
      have hm3 := (mem_insSort _).mp hm2
      rcases List.mem_append.mp hm3 with hside | hside <;>
      · split at hside
        · exact compareCurrent_mem_spec _ _ _ _ _ hside
        · exact absurd hside (List.not_mem_nil m)


theorem arcGet_mem (idx : List (String × (PropLine × ℚ))) (k : String) (v : PropLine × ℚ)
    (h : arcGet idx k = some v) : (k, v) ∈ idx := by
  unfold arcGet at h
  cases hl : (idx.filter (fun kv => kv.1 == k)).getLast? with
  | none => rw [hl] at h; cases h
  | some e =>
    rw [hl] at h
    have hv : e.2 = v := Option.some.inj h
    have he : e ∈ idx.filter (fun kv => kv.1 == k) := List.mem_of_mem_getLast? hl
    have hmem := (List.mem_filter.mp he).1
    have hkey : e.1 = k := by
      have h2 := (List.mem_filter.mp he).2
      simpa [beq_iff_eq] using h2
    have hkv : (k, v) = e := by
      obtain ⟨e1, e2⟩ := e
      simp only at hkey hv
      rw [← hkey, ← hv]
    rw [hkv]
    exact hmem

theorem arcIndex_mem (l : List PropLine) (k : String) (q : PropLine) (lq : ℚ)
    (h : (k, (q, lq)) ∈ arcIndex l) : q ∈ l ∧ q.line = some lq ∧ keyOf q = k := by
  obtain ⟨p, hp, hE⟩ := List.mem_filterMap.mp h
  cases hline : p.line with
  | none => rw [hline] at hE; cases hE
  | some ln =>
    rw [hline] at hE
    simp only [Option.map_some'] at hE
    have hE2 := Option.some.inj hE
    obtain ⟨hk, hq⟩ := Prod.mk.inj hE2
    obtain ⟨hq1, hq2⟩ := Prod.mk.inj hq
    subst hq1
    subst hq2
    subst hk
    exact ⟨hp, hline, rfl⟩

/-- If the archived entries (with finite lines) for the date have pairwise
distinct matching keys, diffing the unchanged live set against the snapshot
emits nothing: each live entry is compared against itself. -/
theorem compareCurrent_roundtrip (L : List PropLine) (date src : String) (hdate : date ≠ "")
    (hnodup : (((L.filter (fun p => (jsOrS p.date p.slateDate).getD "" == date)).filter
        (fun p => p.line.isSome)).map keyOf).Nodup) :
    compareCurrent (arcIndex (L.filter (fun p => (jsOrS p.date p.slateDate).getD "" == date)))
      date src (L.filter (fun p => jsStr p.date == date)) = [] := by
  rw [compareCurrent, List.filterMap_eq_nil_iff]
  intro p hp
  have hpL := (List.mem_filter.mp hp).1
  have hpdate : jsStr p.date = date := by
    have h2 := (List.mem_filter.mp hp).2
    simpa [beq_iff_eq] using h2
  have htruthy : truthyS p.date = some date := by
    unfold jsStr at hpdate
    cases ht : truthyS p.date with
    | none =>
      rw [ht] at hpdate
      simp only [Option.getD_none] at hpdate
      exact absurd hpdate.symm hdate
    | some s =>
      rw [ht] at hpdate
      simp only [Option.getD_some] at hpdate
      rw [hpdate]
  have hparc : p ∈ L.filter (fun p => (jsOrS p.date p.slateDate).getD "" == date) := by
    refine List.mem_filter.mpr ⟨hpL, ?_⟩
    unfold jsOrS
    rw [htruthy]
    simp
  cases harc : arcGet (arcIndex (L.filter (fun p => (jsOrS p.date p.slateDate).getD "" == date)))
      (keyOf p) with
  | none => simp only [harc]
  | some pr =>
    obtain ⟨q, lq⟩ := pr
    have hqmem := arcGet_mem _ _ _ harc
    obtain ⟨hqL, hqline, hqkey⟩ := arcIndex_mem _ _ _ _ hqmem
    cases hpl : p.line with
    | none => simp only [harc, hpl]
    | some cur =>
      have hqp : q = p := by
        refine List.inj_on_of_nodup_map hnodup ?_ ?_ ?_
        · exact List.mem_filter.mpr ⟨hqL, by rw [hqline]; rfl⟩
        · exact List.mem_filter.mpr ⟨hparc, by rw [hpl]; rfl⟩
        · exact hqkey
      subst hqp
      have hlq : lq = cur := by
        rw [hqline] at hpl
        exact Option.some.inj hpl
      subst hlq
      simp only [harc, hpl]
      rw [if_pos (by rw [sub_self, abs_zero])]


/-- Claim C5, counterexample. The round-trip fails when two live props of one
source share the `(playerId, statType)` matching key with different lines
(the import dedup key includes the line, so such pairs coexist): archiving
2025-02-01 from `dbDupKeys` and immediately diffing the unchanged live set
reports one spurious move (line 10 against the last-indexed line 20). -/
theorem c5_roundtrip_fails_on_dup_keys :
    archiveForDate dbDupKeys "2025-02-01" "t0" = archiveDup ∧
    lineMoves dbDupArchived "2025-02-01" "all" 50 =
      .ok { date := "2025-02-01", archiveFound := true, archivedAt := some "t0",
            source := "all", note := none, movesCount := 1, moves := [moveAB] } ∧
    moveAB.absDelta ≠ 0 := by
  have habs : |(10:ℚ) - 20| = 10 := by norm_num
  refine ⟨by decide, ?_, ?_⟩
  swap
  · show |(10:ℚ) - 20| ≠ 0
    rw [habs]
    norm_num
  have hdate : strTrim "2025-02-01" = "2025-02-01" := by decide
  have hgetA : arcGet (arcIndex [propA, propB]) (keyOf propA) = some (propB, 20) := by decide
  have hgetB : arcGet (arcIndex [propA, propB]) (keyOf propB) = some (propB, 20) := by decide
  have hlA : propA.line = some 10 := rfl
  have hlB : propB.line = some 20 := rfl
  have hcmp : compareCurrent (arcIndex [propA, propB]) "2025-02-01" "sgo" [propA, propB] =
      [moveAB] := by
    simp only [compareCurrent, List.filterMap_cons, List.filterMap_nil, hgetA, hgetB, hlA, hlB]
    rw [if_neg (by rw [habs]; norm_num), if_pos (by rw [sub_self, abs_zero])]
    have hpid : jsOrS propA.playerId propB.playerId = some "1" := by decide
    have hname : (jsOrS propA.playerName propB.playerName).getD "Unknown" = "Unknown" := by decide
    have hteam : jsOrS propA.team propB.team = none := by decide
    have hstat : jsOrS propA.statType propB.statType = some "points" := by decide
    rw [hpid, hname, hteam, hstat]
    rfl
  have hcond2 : (!(decide (("2025-02-01" : String) ≠ "") && isValidISODate "2025-02-01")) = false := by
    decide
  have hlook2 : archiveLookup dbDupArchived "2025-02-01" = some archiveDup := by decide
  have hcur : dbDupArchived.sgoPropLines.filter (fun p => jsStr p.date == "2025-02-01") =
      [propA, propB] := by decide
  have hcurH : dbDupArchived.hardrockPropLines.filter (fun p => jsStr p.date == "2025-02-01") =
      [] := by decide
  have hsl : strLower "all" = "all" := by decide
  have haS : archiveDup.sgo = [propA, propB] := rfl
  have haH : archiveDup.hardrock = ([] : List PropLine) := rfl
  have hts : archiveDup.ts = "t0" := rfl
  have hincS : ((("all" : String) == "all") || (("all" : String) == "sgo")) = true := by decide
  have hincH : ((("all" : String) == "all") || (("all" : String) == "hardrock")) = true := by decide
  have hcmpH : compareCurrent (arcIndex ([] : List PropLine)) "2025-02-01" "hardrock" [] = [] := rfl
  simp only [lineMoves, hdate, hcond2, Bool.false_eq_true, if_false, hlook2, hcur, hcurH, hsl,
    haS, haH, hts, hincS, hincH, if_true, hcmp, hcmpH, List.append_nil, insSort, orderedInsert]
  rfl

/-- Claim C5, amended. Every move `line-moves` returns has `delta ≠ 0`,
`delta = curLine − openLine` and `absDelta = |curLine − openLine|` exactly;
and the round-trip — archiving a date and immediately diffing the unchanged
live set — yields zero moves PROVIDED the archived entries with finite lines
have pairwise distinct matching keys per source (otherwise key collisions
are compared against the last-indexed entry and can produce spurious moves,
see the counterexample). -/
theorem c5_line_moves :
    (∀ (db : DB) (dateQ sourceQ : String) (limit : ℕ) (r : MovesResult) (m : Move),
      lineMoves db dateQ sourceQ limit = .ok r → m ∈ r.moves →
      m.delta = m.curLine - m.openLine ∧ m.delta ≠ 0 ∧ m.absDelta = |m.curLine - m.openLine|)
    ∧ (∀ (db : DB) (dateQ ts sourceQ : String) (limit : ℕ) (r : MovesResult),
      (((db.sgoPropLines.filter (fun p => (jsOrS p.date p.slateDate).getD "" == strTrim dateQ)).filter
          (fun p => p.line.isSome)).map keyOf).Nodup →
      (((db.hardrockPropLines.filter (fun p => (jsOrS p.date p.slateDate).getD "" == strTrim dateQ)).filter
          (fun p => p.line.isSome)).map keyOf).Nodup →
      lineMoves { db with propsArchive :=
          [(strTrim dateQ, archiveForDate db (strTrim dateQ) ts)] } dateQ sourceQ limit = .ok r →
      r.moves = [] ∧ r.movesCount = 0) := by
  constructor
  · intro db dateQ sourceQ limit r m h hm
    exact lineMoves_ok_moves db dateQ sourceQ limit r h m hm
  · intro db dateQ ts sourceQ limit r hndS hndH h
    by_cases hv : (!(decide (strTrim dateQ ≠ "") && isValidISODate (strTrim dateQ))) = true
    · simp only [lineMoves, hv, if_true] at h
      exact Except.noConfusion h
    · have hv' : (!(decide (strTrim dateQ ≠ "") && isValidISODate (strTrim dateQ))) = false :=
        (Bool.not_eq_true _).mp hv
      have hvand : (decide (strTrim dateQ ≠ "") && isValidISODate (strTrim dateQ)) = true := by
        rw [← Bool.not_not (decide (strTrim dateQ ≠ "") && isValidISODate (strTrim dateQ)), hv']
        rfl
      have hdate : strTrim dateQ ≠ "" := by
        rw [Bool.and_eq_true, decide_eq_true_eq] at hvand
        exact hvand.1
      have hlook : archiveLookup { db with propsArchive :=
          [(strTrim dateQ, archiveForDate db (strTrim dateQ) ts)] } (strTrim dateQ) =
          some (archiveForDate db (strTrim dateQ) ts) := by
        unfold archiveLookup
        simp [List.find?]
      have hS := compareCurrent_roundtrip db.sgoPropLines (strTrim dateQ) "sgo" hdate hndS
      have hH := compareCurrent_roundtrip db.hardrockPropLines (strTrim dateQ) "hardrock" hdate hndH
      simp only [archiveForDate] at hlook
      simp only [lineMoves, hv', Bool.false_eq_true, if_false, archiveForDate, hlook] at h
      rw [hS, hH] at h
      simp only [ite_self, List.append_nil, insSort, List.take_nil, List.length_nil] at h
      have hr := Except.ok.inj h
      rw [← hr]
      exact ⟨rfl, rfl⟩

/-- Claim C5 witness: the round-trip conjunct applied to the one-prop database
`dbNL` (distinct keys trivially): archiving 2025-02-01 and diffing reports no
moves. -/
theorem c5_line_moves_witness :
    ({ date := "2025-02-01", archiveFound := true, archivedAt := some "t0", source := "all",
       note := none, movesCount := 0, moves := [] } : MovesResult).moves = [] ∧
    ({ date := "2025-02-01", archiveFound := true, archivedAt := some "t0", source := "all",
       note := none, movesCount := 0, moves := [] } : MovesResult).movesCount = 0 := by
  have heval : lineMoves { dbNL with propsArchive :=
      [(strTrim "2025-02-01", archiveForDate dbNL (strTrim "2025-02-01") "t0")] }
      "2025-02-01" "all" 50 =
      .ok { date := "2025-02-01", archiveFound := true, archivedAt := some "t0", source := "all",
            note := none, movesCount := 0, moves := [] } := by
    have hcond : (!(decide ((strTrim "2025-02-01") ≠ "") &&
        isValidISODate (strTrim "2025-02-01"))) = false := by decide
    have hlook : archiveLookup { dbNL with propsArchive :=
        [(strTrim "2025-02-01", archiveForDate dbNL (strTrim "2025-02-01") "t0")] }
        (strTrim "2025-02-01") = some (archiveForDate dbNL (strTrim "2025-02-01") "t0") := by
      decide
    simp only [lineMoves, hcond, Bool.false_eq_true, if_false, hlook]
    refine congrArg Except.ok ?_
    decide
  exact c5_line_moves.2 dbNL "2025-02-01" "t0" "all" 50 _ (by decide) (by decide) heval

end ProTracker
